import Mathlib

/-!
Verification development for the AI-Proxy gateway.

Each definition below is a shallow embedding of a function of the
TypeScript source, translated statement by statement.  Effectful pieces
(network sends, timers, event emission) are modelled by passing their
outcomes in as explicit arguments (oracles) and returning the state and
the emitted actions, so every definition is executable and the theorems
can be evaluated on concrete inputs.
-/

namespace AIProxy

/-! ## JS `Map` model

The source keeps its tables in JS `Map` objects.  A JS map is an
insertion-ordered association list with unique keys: `set` replaces the
value in place when the key exists and appends otherwise, `get` returns
the value of the unique entry, `delete` removes it. -/

variable {K V : Type} [DecidableEq K]

/-- JS `Map.prototype.set`: replace in place, or append at the end. -/
def mset (k : K) (v : V) : List (K × V) → List (K × V)
  | [] => [(k, v)]
  | (k', v') :: rest => if k' = k then (k, v) :: rest else (k', v') :: mset k v rest

/-- JS `Map.prototype.get` (`undefined` becomes `none`): the value of
the first — in a well-formed map the unique — entry with the key. -/
def mget (k : K) : List (K × V) → Option V
  | [] => none
  | (k', v) :: rest => if k' = k then some v else mget k rest

/-- JS `Map.prototype.delete`: remove the entry with the given key. -/
def mdel (k : K) : List (K × V) → List (K × V)
  | [] => []
  | (k', v') :: rest => if k' = k then rest else (k', v') :: mdel k rest

/-- The keys of the table, in insertion order. -/
def mkeys (l : List (K × V)) : List K := l.map Prod.fst

/-! ## Tool-protocol client: request correlation (src/mcp/client.ts)

`MCPClient` keeps `requestIdCounter` and `pendingRequests`
(a `Map` from request id to the awaiting caller's resolve/reject pair).
We represent the awaiting caller by an abstract token (`Nat`). -/

/-- The correlation state of one `MCPClient`: the id counter and the
pending-request table (`pendingRequests`). -/
structure ClientSt where
  requestIdCounter : Nat
  pending : List (Nat × Nat)
  deriving DecidableEq, Repr

/-- Outcome of the transport-level `sendMessage` call. -/
inductive SendOutcome where
  | ok
  | fail (err : String)
  deriving DecidableEq, Repr

/-- `MCPClient.sendRequest`: allocate `id := ++requestIdCounter`, insert the
caller into `pendingRequests`, then send.  When the send fails, the code's
`.catch` deletes the entry and rejects the caller, returned here as
`some err`. -/
def sendRequestStep (s : ClientSt) (caller : Nat) (out : SendOutcome) :
    ClientSt × Option String :=
  let id := s.requestIdCounter + 1
  let s1 : ClientSt := { requestIdCounter := id, pending := mset id caller s.pending }
  match out with
  | .ok => (s1, none)
  | .fail e => ({ s1 with pending := mdel id s1.pending }, some e)

/-- A JSON-RPC response as far as correlation is concerned: the optional
id and whether an `error` member is present. -/
structure JResponse where
  id : Option Nat
  haserr : Bool
  deriving DecidableEq, Repr

/-- What `MCPClient.handleResponse` did with a response. -/
inductive RespAction where
  | droppedNoId
  | droppedUnknown
  | resolvedOk (caller : Nat)
  | rejectedErr (caller : Nat)
  deriving DecidableEq, Repr

/-- `MCPClient.handleResponse`: a response without an id is logged and
dropped; an id with no pending entry is logged and dropped; otherwise the
entry is deleted and the caller is rejected (when `error` is present) or
resolved. -/
def handleResponse (s : ClientSt) (r : JResponse) : ClientSt × RespAction :=
  match r.id with
  | none => (s, .droppedNoId)
  | some i =>
    match mget i s.pending with
    | none => (s, .droppedUnknown)
    | some c =>
      ({ s with pending := mdel i s.pending },
       if r.haserr then .rejectedErr c else .resolvedOk c)

/-- The timer branch of `MCPClient.callTool`: the `setTimeout` callback
only rejects the racing promise (`Promise.race`); it touches neither the
pending table nor the id counter, so the client state is unchanged. -/
def timeoutFire (s : ClientSt) : ClientSt := s

/-- Invariant maintained by the client: every pending id was allocated,
i.e. is at most the current counter value. -/
def idsBounded (s : ClientSt) : Prop :=
  ∀ p ∈ s.pending, p.1 ≤ s.requestIdCounter

instance (s : ClientSt) : Decidable (idsBounded s) := by
  unfold idsBounded; infer_instance

/-! ## Tool Registry/Manager (src/mcp/manager.ts) -/

/-- A tool advertised by a tool server (`MCPTool`): its name and its
schema payload, kept opaque. -/
structure MCPToolD where
  name : String
  schema : String
  deriving DecidableEq, Repr

/-- One configured server, reduced to the field the manager logic uses. -/
structure MCPServerCfg where
  name : String
  deriving DecidableEq, Repr

/-- Outcome of constructing, handshaking and discovering tools for one
configured server (`createMCPClient` + `client.initialize` +
`client.getTools`). -/
inductive InitOutcome where
  | ok (tools : List MCPToolD)
  | fail (err : String)
  deriving DecidableEq, Repr

/-- The manager state: `clients` (server name to its discovered tools,
standing in for the client object), `tools` (tool name to owning server
and schema), and the error log written by the `catch` branch. -/
structure ManagerSt where
  clients : List (String × List MCPToolD)
  tools : List (String × (String × MCPToolD))
  errlog : List String
  deriving DecidableEq, Repr

/-- The `for (const tool of serverTools)` registration loop:
`this.tools.set(tool.name, { server, tool })` for each discovered tool,
later entries overwriting earlier ones. -/
def regTools (srv : String) (ts : List MCPToolD)
    (m : List (String × (String × MCPToolD))) : List (String × (String × MCPToolD)) :=
  ts.foldl (fun m t => mset t.name (srv, t) m) m

/-- The body of the `for (const config of configs)` loop of
`MCPManager.initializeServers`: on success register the client and then
each of its tools; on failure log the error and continue. -/
def initServerStep (oracle : MCPServerCfg → InitOutcome) (st : ManagerSt)
    (cfg : MCPServerCfg) : ManagerSt :=
  match oracle cfg with
  | .ok ts =>
      { st with
        clients := mset cfg.name ts st.clients
        tools := regTools cfg.name ts st.tools }
  | .fail e =>
      { st with errlog := st.errlog ++ ["Failed to initialize MCP server " ++ cfg.name ++ ": " ++ e] }

/-- `MCPManager.initializeServers` over a configuration list, with the
per-server outcome supplied by `oracle`. -/
def initServers (oracle : MCPServerCfg → InitOutcome) (configs : List MCPServerCfg) : ManagerSt :=
  configs.foldl (initServerStep oracle) ⟨[], [], []⟩

/-- Result of `MCPManager.callTool` before any tool execution happens. -/
inductive CallResult where
  | notFound (msg : String)
  | serverMissing (msg : String)
  | delegated (server : String) (tool : String)
  deriving DecidableEq, Repr

/-- The last tool named `k` in an advertised tool list — the one whose
registration survives the in-order `tools.set` calls. -/
def lastNamed (k : String) : List MCPToolD → Option MCPToolD
  | [] => none
  | t :: rest =>
    match lastNamed k rest with
    | some r => some r
    | none => if t.name = k then some t else none

/-- `MCPManager.callTool`: resolve the owning server from the `tools`
table; an unknown tool name throws `Tool not found` before any server is
contacted; otherwise the call is delegated to the owning client. -/
def managerCallTool (st : ManagerSt) (name : String) : CallResult :=
  match mget name st.tools with
  | none => .notFound ("Tool not found: " ++ name)
  | some (srv, _) =>
    match mget srv st.clients with
    | none => .serverMissing ("MCP server not found: " ++ srv)
    | some _ => .delegated srv name

/-! ## HTTP+push transport reconnection (src/mcp/transport/sse.ts)

`SSEMCPClient.handleReconnect` is a recursion: if the attempt counter has
reached `maxReconnectAttempts` it sets the client state to `error`, emits
an error event and stops; otherwise it increments the counter, waits
`reconnectDelay * 2 ^ (reconnectAttempts - 1)` milliseconds, and retries
`connectSSE`, recursing on failure.  The outcome of each `connectSSE`
attempt is supplied by `oracle` (argument: the attempt number). -/

/-- Result of a `handleReconnect` cascade: the backoff delays that were
waited (in order), whether the client ended in the `error` state, how
many error events were emitted, and the final value of
`reconnectAttempts` (reset to 0 by `connectSSE`'s `onopen`). -/
structure ReconnectResult where
  delays : List Nat
  errorState : Bool
  errorEvents : Nat
  finalAttempts : Nat
  deriving DecidableEq, Repr

/-- `SSEMCPClient.handleReconnect`, starting from attempt counter `a`. -/
def handleReconnect (maxA base : Nat) (oracle : Nat → Bool) (a : Nat) : ReconnectResult :=
  if maxA ≤ a then
    { delays := [], errorState := true, errorEvents := 1, finalAttempts := a }
  else
    let a' := a + 1
    let delay := base * 2 ^ (a' - 1)
    if oracle a' then
      { delays := [delay], errorState := false, errorEvents := 0, finalAttempts := 0 }
    else
      let r := handleReconnect maxA base oracle a'
      { r with delays := delay :: r.delays }
  termination_by maxA - a
  decreasing_by omega

/-! ## Tool-continuation orchestrator (src/routes/chat.ts)

`handleAutoToolContinuation` runs `for (iteration = 0; iteration <
maxIterations; iteration++)`, calling the provider, accumulating usage,
replacing the cost snapshot, appending the assistant message, and
returning: with the tool calls and an informational note when the reply
carries tool calls, with the final message when it does not, or with a
500 on a provider error.  The code after the loop reports
`Max tool continuation iterations reached`. -/

/-- Canonical `ToolCall` (providers/types.ts): id, wire `type` tag,
function name, JSON-encoded argument string. -/
structure ToolCallD where
  id : String
  ctype : String
  fname : String
  arguments : String
  deriving DecidableEq, Repr

/-- Canonical `TokenUsage`: every field optional. -/
structure UsageT where
  prompt_tokens : Option Nat
  completion_tokens : Option Nat
  input_tokens : Option Nat
  output_tokens : Option Nat
  total_tokens : Option Nat
  deriving DecidableEq, Repr

/-- The orchestrator's `totalUsage` accumulator, initialised with zeros
(every field present). -/
structure UsageAcc where
  prompt_tokens : Nat
  completion_tokens : Nat
  input_tokens : Nat
  output_tokens : Nat
  total_tokens : Nat
  deriving DecidableEq, Repr

/-- The all-zeros initial value of `totalUsage`. -/
def zeroUsageAcc : UsageAcc := ⟨0, 0, 0, 0, 0⟩

/-- The usage-accumulation statements of the loop body (chat.ts lines
111-123): guarded by `if (response.usage)`, each field is added with
`(total.f || 0) + (response.usage.f || 0)`, an absent field counting as
zero. -/
def accumUsage (t : UsageAcc) (u : Option UsageT) : UsageAcc :=
  match u with
  | none => t
  | some u =>
      { prompt_tokens := t.prompt_tokens + u.prompt_tokens.getD 0
        completion_tokens := t.completion_tokens + u.completion_tokens.getD 0
        input_tokens := t.input_tokens + u.input_tokens.getD 0
        output_tokens := t.output_tokens + u.output_tokens.getD 0
        total_tokens := t.total_tokens + u.total_tokens.getD 0 }

/-- The cost statement of the loop body (chat.ts lines 126-128):
`if (response.cost) totalCost = response.cost` — the latest non-null
snapshot replaces the previous one; nothing is summed.  The cost payload
is kept abstract in `γ`. -/
def updateCost {γ : Type} (t : Option γ) (c : Option γ) : Option γ :=
  match c with
  | some c => some c
  | none => t

/-- One provider reply as the orchestrator consumes it
(`handleProviderRequest`'s result). -/
structure ProviderResp (γ : Type) where
  content : Option String
  tool_calls : Option (List ToolCallD)
  usage : Option UsageT
  cost : Option γ
  deriving DecidableEq, Repr

/-- The response the orchestrator hands back to the HTTP layer. -/
inductive LoopOutcome (γ : Type) where
  | toolCallsDetected (usage : UsageAcc) (cost : Option γ) (iterations : Nat)
      (toolCalls : List ToolCallD)
  | finalResponse (usage : UsageAcc) (cost : Option γ) (iterations : Nat)
      (toolCalls : Option (List ToolCallD))
  | continuationFailed (err : String) (iteration : Nat)
  | maxIterationsReached (usage : UsageAcc) (cost : Option γ)
  deriving DecidableEq, Repr

/-- The `for` loop of `handleAutoToolContinuation`, iteration `it`
onward, carrying `totalUsage`, `totalCost` and `allToolCalls`.  The
provider call of iteration `i` yields `oracle i` (`.error` modelling a
thrown provider error).  Every branch of the loop body executes a
`return`, so the function is not recursive: the loop never advances past
the first iteration it executes. -/
def autoGo {γ : Type} (oracle : Nat → Except String (ProviderResp γ)) (maxIter : Nat)
    (it : Nat) (usage : UsageAcc) (cost : Option γ) (acc : List ToolCallD) :
    LoopOutcome γ :=
  if it < maxIter then
    match oracle it with
    | .error e => .continuationFailed e it
    | .ok resp =>
      let usage' := accumUsage usage resp.usage
      let cost' := updateCost cost resp.cost
      match resp.tool_calls with
      | some tcs =>
        if tcs.length > 0 then
          .toolCallsDetected usage' cost' (it + 1) (acc ++ tcs)
        else
          .finalResponse usage' cost' (it + 1) (if acc.length > 0 then some acc else none)
      | none =>
          .finalResponse usage' cost' (it + 1) (if acc.length > 0 then some acc else none)
  else
    .maxIterationsReached usage cost

/-- `handleAutoToolContinuation` with its default bound of 10. -/
def handleAutoToolContinuation {γ : Type}
    (oracle : Nat → Except String (ProviderResp γ)) (maxIter : Nat := 10) :
    LoopOutcome γ :=
  autoGo oracle maxIter 0 zeroUsageAcc none []

/-- Whether the orchestrator reported the iteration-limit error
(`Max tool continuation iterations reached`). -/
def isMaxIterations {γ : Type} : LoopOutcome γ → Bool
  | .maxIterationsReached _ _ => true
  | _ => false

/-- The `iterations` field reported to the caller, when present. -/
def iterationsReported {γ : Type} : LoopOutcome γ → Option Nat
  | .toolCallsDetected _ _ n _ => some n
  | .finalResponse _ _ n _ => some n
  | _ => none

/-- The last non-null element of a snapshot sequence — the value
`totalCost` holds after the folds of `updateCost`. -/
def lastSnapshot {γ : Type} (cs : List (Option γ)) : Option γ :=
  (cs.filterMap id).getLast?

/-! ## Provider adapters: canonical usage extraction

`handleOpenAI` and `handleMistral` (src/providers/openai.ts /
mistral.ts) copy `prompt_tokens`, `completion_tokens` and `total_tokens`
from the wire usage with `?? 0` defaults; `handleAnthropic`
(src/providers/anthropic.ts) copies `input_tokens` and `output_tokens`
and computes `total_tokens` as their sum. -/

/-- Wire usage of the prompt/completion family (OpenAI, Mistral): the
object itself and each field may be absent. -/
structure WirePCUsage where
  prompt_tokens : Option Nat
  completion_tokens : Option Nat
  total_tokens : Option Nat
  deriving DecidableEq, Repr

/-- Wire usage of the input/output family (Anthropic). -/
structure WireInOutUsage where
  input_tokens : Option Nat
  output_tokens : Option Nat
  deriving DecidableEq, Repr

/-- Canonical usage produced by the OpenAI/Mistral adapters (all fields
present). -/
structure PCUsageOut where
  prompt_tokens : Nat
  completion_tokens : Nat
  total_tokens : Nat
  deriving DecidableEq, Repr

/-- Canonical usage produced by the Anthropic adapter. -/
structure InOutUsageOut where
  input_tokens : Nat
  output_tokens : Nat
  total_tokens : Nat
  deriving DecidableEq, Repr

/-- `handleOpenAI`'s `tokenUsage` construction:
`usage?.f ?? 0` for each of the three fields. -/
def extractOpenAIUsage (u : Option WirePCUsage) : PCUsageOut :=
  { prompt_tokens := ((u.bind (·.prompt_tokens)).getD 0)
    completion_tokens := ((u.bind (·.completion_tokens)).getD 0)
    total_tokens := ((u.bind (·.total_tokens)).getD 0) }

/-- `handleMistral`'s `tokenUsage` construction (same statements as the
OpenAI adapter). -/
def extractMistralUsage (u : Option WirePCUsage) : PCUsageOut :=
  { prompt_tokens := ((u.bind (·.prompt_tokens)).getD 0)
    completion_tokens := ((u.bind (·.completion_tokens)).getD 0)
    total_tokens := ((u.bind (·.total_tokens)).getD 0) }

/-- `handleAnthropic`'s `tokenUsage` construction:
`total_tokens := (usage?.input_tokens ?? 0) + (usage?.output_tokens ?? 0)`. -/
def extractAnthropicUsage (u : Option WireInOutUsage) : InOutUsageOut :=
  { input_tokens := ((u.bind (·.input_tokens)).getD 0)
    output_tokens := ((u.bind (·.output_tokens)).getD 0)
    total_tokens := ((u.bind (·.input_tokens)).getD 0) + ((u.bind (·.output_tokens)).getD 0) }

/-! ## Tool-schema converter (src/providers/tools/converter.ts)

The converter is pure.  JSON values handled by `JSON.parse` /
`JSON.stringify` are kept abstract in a type parameter `J`, with the two
functions supplied as arguments `jparse : String → Option J` (`none`
models a thrown parse error) and `jprint : J → String`. -/

/-- Canonical message roles. -/
inductive Role where
  | system
  | user
  | assistant
  | tool
  deriving DecidableEq, Repr

/-- A content block as it appears in Anthropic-style block content:
a text block, a tool-use block, or a tool-result block. -/
inductive ABlock (J : Type) where
  | text (t : String)
  | toolUse (id : String) (name : String) (input : J)
  | toolResult (tool_use_id : Option String) (content : String)
  deriving DecidableEq, Repr

/-- Canonical message content: a string, `null`, or a block list. -/
inductive MsgContent (J : Type) where
  | str (s : String)
  | null
  | blocks (bs : List (ABlock J))
  deriving DecidableEq, Repr

/-- Canonical `Message` (providers/types.ts, extended form). -/
structure MessageD (J : Type) where
  role : Role
  content : MsgContent J
  tool_calls : Option (List ToolCallD)
  tool_call_id : Option String
  name : Option String
  deriving DecidableEq, Repr

/-- The wire message built by `messagesToOpenAI` / `messagesToMistral`
(both build the same shape). -/
structure OAIWireMsg (J : Type) where
  role : Role
  content : MsgContent J
  tool_calls : Option (List ToolCallD)
  tool_call_id : Option String
  deriving DecidableEq, Repr

/-- The identity copy `tc => ({id, type, function})` applied to each
tool call by the message converters. -/
def copyToolCall (tc : ToolCallD) : ToolCallD :=
  { id := tc.id, ctype := tc.ctype, fname := tc.fname, arguments := tc.arguments }

/-- The per-message lambda of `messagesToOpenAI`: tool messages keep
content and `tool_call_id` (the optional `name` is dropped), assistant
messages with a `tool_calls` array keep string content (anything else
becomes `null`) and the copied tool calls, and every other message
passes through. -/
def messageToOpenAI {J : Type} (m : MessageD J) : OAIWireMsg J :=
  if m.role = .tool then
    { role := m.role, content := m.content, tool_calls := none,
      tool_call_id := m.tool_call_id }
  else if m.role = .assistant ∧ m.tool_calls.isSome then
    { role := m.role,
      content := match m.content with
        | .str s => .str s
        | _ => .null,
      tool_calls := (m.tool_calls.getD []).map copyToolCall,
      tool_call_id := none }
  else
    { role := m.role, content := m.content, tool_calls := none, tool_call_id := none }

/-- `messagesToOpenAI`: the map over the message list. -/
def messagesToOpenAI {J : Type} (ms : List (MessageD J)) : List (OAIWireMsg J) :=
  ms.map messageToOpenAI

/-- The per-message lambda of `messagesToMistral` — statement for
statement the same as the OpenAI one. -/
def messageToMistral {J : Type} (m : MessageD J) : OAIWireMsg J :=
  if m.role = .tool then
    { role := m.role, content := m.content, tool_calls := none,
      tool_call_id := m.tool_call_id }
  else if m.role = .assistant ∧ m.tool_calls.isSome then
    { role := m.role,
      content := match m.content with
        | .str s => .str s
        | _ => .null,
      tool_calls := (m.tool_calls.getD []).map copyToolCall,
      tool_call_id := none }
  else
    { role := m.role, content := m.content, tool_calls := none, tool_call_id := none }

/-- `messagesToMistral`: the map over the message list. -/
def messagesToMistral {J : Type} (ms : List (MessageD J)) : List (OAIWireMsg J) :=
  ms.map messageToMistral

/-- The wire message built by `messagesToAnthropic` (role plus string or
block content). -/
structure AnthWireMsg (J : Type) where
  role : Role
  content : MsgContent J
  deriving DecidableEq, Repr

/-- The `msg.tool_calls.forEach` of `messagesToAnthropic`: one
`tool_use` block per call, with `input := JSON.parse(tc.function.arguments)`;
a parse failure (`none`) aborts the conversion as the thrown exception
would. -/
def parseToolUses {J : Type} (jparse : String → Option J) :
    List ToolCallD → Option (List (ABlock J))
  | [] => some []
  | tc :: rest =>
    match jparse tc.arguments with
    | none => none
    | some j =>
      (parseToolUses jparse rest).map (fun tus => ABlock.toolUse tc.id tc.fname j :: tus)

/-- The per-message lambda of `messagesToAnthropic`.  `jdump` models the
`JSON.stringify(msg.content)` fallback for non-string content; `jparse`
models `JSON.parse(tc.function.arguments)`, whose failure (`none`)
aborts the conversion as the thrown exception would.

System messages are rewritten to `role: "user"` with their text; tool
messages become a user message holding one `tool_result` block;
assistant messages with a `tool_calls` array become a text block (only
when the content is a nonempty string) followed by one `tool_use` block
per call, parsing each argument string; everything else passes
through. -/
def messageToAnthropic {J : Type} (jparse : String → Option J)
    (jdump : MsgContent J → String) (m : MessageD J) : Option (AnthWireMsg J) :=
  if m.role = .system then
    some { role := .user,
           content := .str (match m.content with | .str s => s | c => jdump c) }
  else if m.role = .tool then
    some { role := .user,
           content := .blocks
             [.toolResult m.tool_call_id
               (match m.content with | .str s => s | c => jdump c)] }
  else if m.role = .assistant ∧ m.tool_calls.isSome then
    let base : List (ABlock J) :=
      match m.content with
      | .str s => if s ≠ "" then [.text s] else []
      | _ => []
    (parseToolUses jparse (m.tool_calls.getD [])).map
      (fun tus => { role := .assistant, content := .blocks (base ++ tus) })
  else
    some { role := m.role, content := m.content }

/-- `messagesToAnthropic`: the map over the message list (a parse
failure in any message fails the whole conversion, as the exception
propagates out of `Array.prototype.map`). -/
def messagesToAnthropic {J : Type} (jparse : String → Option J)
    (jdump : MsgContent J → String) (ms : List (MessageD J)) :
    Option (List (AnthWireMsg J)) :=
  ms.mapM (messageToAnthropic jparse jdump)

/-- The canonical message assembled by a provider adapter from a reply. -/
structure CanonReply where
  role : Role
  content : Option String
  tool_calls : Option (List ToolCallD)
  deriving DecidableEq, Repr

/-- A reply message on the OpenAI/Mistral wire (`choices[0].message`). -/
structure OAIReplyMsg where
  role : Role
  content : Option String
  tool_calls : Option (List ToolCallD)
  deriving DecidableEq, Repr

/-- `openAIToolCallsToUnified`: `undefined` when the reply carries no
tool calls or an empty array, otherwise the per-call field copy. -/
def openAIToolCallsToUnified (tcs : Option (List ToolCallD)) : Option (List ToolCallD) :=
  match tcs with
  | none => none
  | some l => if l.length = 0 then none else some (l.map copyToolCall)

/-- `mistralToolCallsToUnified` — same statements as the OpenAI one. -/
def mistralToolCallsToUnified (tcs : Option (List ToolCallD)) : Option (List ToolCallD) :=
  match tcs with
  | none => none
  | some l => if l.length = 0 then none else some (l.map copyToolCall)

/-- JavaScript `x || null` on an optional string: `undefined`, `null`
and the empty string all collapse to `null`. -/
def jsOrNull (o : Option String) : Option String :=
  match o with
  | some s => if s = "" then none else some s
  | none => none

/-- The reply-to-canonical direction of the OpenAI adapter
(`handleOpenAI`): `role` copied, `content` via `message.content || null`,
tool calls via `openAIToolCallsToUnified`. -/
def fromOpenAIReply (w : OAIReplyMsg) : CanonReply :=
  { role := w.role, content := jsOrNull w.content,
    tool_calls := openAIToolCallsToUnified w.tool_calls }

/-- The reply-to-canonical direction of the Mistral adapter
(`handleMistral`), same statements. -/
def fromMistralReply (w : OAIReplyMsg) : CanonReply :=
  { role := w.role, content := jsOrNull w.content,
    tool_calls := mistralToolCallsToUnified w.tool_calls }

/-- `anthropicToolUseToUnified`: filter the `tool_use` blocks;
`undefined` when there are none, otherwise map each to a canonical call
with `type: "function"` and `arguments := JSON.stringify(input)`. -/
def anthropicToolUseToUnified {J : Type} (jprint : J → String)
    (content : List (ABlock J)) : Option (List ToolCallD) :=
  let tus := content.filterMap
    (fun b => match b with
      | .toolUse id nm inp => some (ToolCallD.mk id "function" nm (jprint inp))
      | _ => none)
  if tus.length = 0 then none else some tus

/-- The text extraction of `handleAnthropic`:
`content.find(item => item.type === "text")?.text || null` — the first
text block only, with an empty string collapsing to `null`. -/
def anthTextContent {J : Type} (content : List (ABlock J)) : Option String :=
  jsOrNull
    ((content.find? (fun b => match b with | .text _ => true | _ => false)).bind
      (fun b => match b with | .text t => some t | _ => none))

/-- The reply-to-canonical direction of the Anthropic adapter
(`handleAnthropic`): the role is the literal `"assistant"`, the content
is the first text block, the tool calls come from
`anthropicToolUseToUnified`. -/
def fromAnthropicReply {J : Type} (jprint : J → String)
    (content : List (ABlock J)) : CanonReply :=
  { role := .assistant, content := anthTextContent content,
    tool_calls := anthropicToolUseToUnified jprint content }

/-- View of a to-provider wire message as a reply message, for stating
the round trip: string content stays, `null` stays `null`; block
content has no reply counterpart and is treated as absent. -/
def wireContentAsReply {J : Type} (c : MsgContent J) : Option String :=
  match c with
  | .str s => some s
  | _ => none

/-- Round trip of one canonical message through the OpenAI wire shape. -/
def roundTripOpenAI {J : Type} (m : MessageD J) : CanonReply :=
  let w := messageToOpenAI m
  fromOpenAIReply { role := w.role, content := wireContentAsReply w.content,
                    tool_calls := w.tool_calls }

/-- Round trip of one canonical message through the Mistral wire shape. -/
def roundTripMistral {J : Type} (m : MessageD J) : CanonReply :=
  let w := messageToMistral m
  fromMistralReply { role := w.role, content := wireContentAsReply w.content,
                     tool_calls := w.tool_calls }

/-- Round trip of one canonical message through the Anthropic wire
shape: convert, then run the adapter's reply extraction on the block
content (a string-content wire message has no block list; it yields an
empty one). -/
def roundTripAnthropic {J : Type} (jparse : String → Option J)
    (jdump : MsgContent J → String) (jprint : J → String) (m : MessageD J) :
    Option CanonReply :=
  (messageToAnthropic jparse jdump m).map
    (fun w => fromAnthropicReply jprint
      (match w.content with | .blocks bs => bs | _ => []))

/-- Message content within the fragment the reply extraction can
represent: `null`, or a nonempty string. -/
def contentOk {J : Type} (m : MessageD J) : Bool :=
  match m.content with
  | .str s => s ≠ ""
  | .null => true
  | .blocks _ => false

/-- Tool calls within the fragment the reply extraction can represent:
absent, or a nonempty list. -/
def toolCallsOk {J : Type} (m : MessageD J) : Bool :=
  match m.tool_calls with
  | none => true
  | some l => !l.isEmpty

/-! ## Stream normalizers (src/providers/streaming/openai.ts, anthropic.ts)

Each `data` handler does
`buffer += chunk; const lines = buffer.split(sep); buffer = lines.pop()`,
then processes the complete pieces in order, with the `[DONE]` /
`message_stop` branch executing `return` (ending processing of the
current read).  Byte streams are lists of characters; `JSON.parse` of a
payload is supplied as an oracle. -/

/-- Leftmost occurrence of the separator `d` in `s`:
`some (pre, post)` with `s = pre ++ d ++ post`, `none` when `d` does not
occur. -/
def findSplit (d : List Char) : List Char → Option (List Char × List Char)
  | [] => none
  | c :: rest =>
      if d.isPrefixOf (c :: rest) then some ([], (c :: rest).drop d.length)
      else (findSplit d rest).map (fun pr => (c :: pr.1, pr.2))

/-- Fuelled worker for `scanChunk` (the fuel only serves termination; it
is always sufficient). -/
def scanChunkF (d : List Char) : Nat → List Char → List (List Char) × List Char
  | 0, s => ([], s)
  | fuel + 1, s =>
    match findSplit d s with
    | none => ([], s)
    | some (pre, post) =>
      let (segs, rem) := scanChunkF d fuel post
      (pre :: segs, rem)

/-- `buffer.split(sep)` followed by `buffer = lines.pop()`: the complete
segments in order, and the trailing remainder kept as the new buffer. -/
def scanChunk (d s : List Char) : List (List Char) × List Char :=
  scanChunkF d (s.length + 1) s

/-- One provider-specific segment machine: `trigger` recognises the
segment whose branch executes `return` (ending the current read's
processing), `step` maps the machine state and one complete segment to
the emitted events and the next state. -/
structure SegMachine (σ Ev : Type) where
  trigger : List Char → Bool
  step : σ → List Char → List Ev × σ

/-- Process the complete segments of one read in order, stopping after a
`trigger` segment exactly as the `return` statement does. -/
def foldSegs {σ Ev : Type} (M : SegMachine σ Ev) : σ → List (List Char) → List Ev × σ
  | s, [] => ([], s)
  | s, seg :: rest =>
    let (evs, s') := M.step s seg
    if M.trigger seg then (evs, s')
    else
      let (evs2, s2) := foldSegs M s' rest
      (evs ++ evs2, s2)

/-- One invocation of the `data` handler: append the read to the buffer,
split off the complete segments, keep the remainder, process the
segments. -/
def processRead {σ Ev : Type} (d : List Char) (M : SegMachine σ Ev)
    (st : List Char × σ) (c : List Char) : List Ev × (List Char × σ) :=
  let (segs, rem) := scanChunk d (st.1 ++ c)
  let (evs, s') := foldSegs M st.2 segs
  (evs, (rem, s'))

/-- The handler applied to a sequence of reads, concatenating the
emitted events. -/
def processReads {σ Ev : Type} (d : List Char) (M : SegMachine σ Ev) :
    List Char × σ → List (List Char) → List Ev × (List Char × σ)
  | st, [] => ([], st)
  | st, c :: cs =>
    let (evs, st') := processRead d M st c
    let (evs2, st2) := processReads d M st' cs
    (evs ++ evs2, st2)

/-- JavaScript `line.trim() === ""`. -/
def isBlankSeg (seg : List Char) : Bool :=
  seg.all (fun c => c.isWhitespace)

/-- JavaScript `String.prototype.trim` on a character list. -/
def trimChars (s : List Char) : List Char :=
  ((s.dropWhile Char.isWhitespace).reverse.dropWhile Char.isWhitespace).reverse

/-- The `data: ` prefix test and `line.slice(6)`: the payload of a data
line, skipping blank lines and lines without the prefix. -/
def segData (seg : List Char) : Option (List Char) :=
  if isBlankSeg seg then none
  else if "data: ".data.isPrefixOf seg then some (seg.drop 6)
  else none

/-- Usage triple of the OpenAI/Mistral stream (`prompt_tokens`,
`completion_tokens`, `total_tokens`). -/
structure PCTriple where
  prompt : Nat
  completion : Nat
  total : Nat
  deriving DecidableEq, Repr

/-- The fields of one parsed OpenAI stream chunk the handler reads:
`choices[0]?.delta?.content`, `choices[0]?.delta?.role`, `usage`. -/
structure OAIDelta where
  content : Option String
  role : Option String
  usage : Option PCTriple
  deriving DecidableEq, Repr

/-- Handler state of the OpenAI/Mistral stream normalizer: the `usage`
variable captured from chunks. -/
structure OAISt where
  usage : Option PCTriple
  deriving DecidableEq, Repr

/-- Unified events emitted by the OpenAI/Mistral stream normalizer
(`sendSSEChunk` and the `sendSSEEnd` of the `[DONE]` branch; cost and
latency are deterministic functions of the usage and wall clock and are
out of the event model). -/
inductive OAIEv where
  | chunk (content : String) (role : String)
  | done (usage : PCTriple)
  deriving DecidableEq, Repr

/-- JavaScript `x || "assistant"` on the optional role string. -/
def jsOrAssistant (o : Option String) : String :=
  match o with
  | some s => if s = "" then "assistant" else s
  | none => "assistant"

/-- The trigger of the OpenAI/Mistral handler: a data line whose payload
is `[DONE]` (its branch sends the final event and returns). -/
def oaiTrigger (seg : List Char) : Bool :=
  match segData seg with
  | some d => d = "[DONE]".data
  | none => false

/-- The per-segment body of the OpenAI/Mistral `data` handler: skip
blank and non-data lines; on `[DONE]` emit the final event with the
captured usage or zeros; otherwise parse the payload (a failure is
logged and skipped), emit a chunk when `delta.content` is a nonempty
string (role defaulted to `assistant`), and capture `usage` when
present. -/
def oaiStep (parse : List Char → Option OAIDelta) (s : OAISt) (seg : List Char) :
    List OAIEv × OAISt :=
  match segData seg with
  | none => ([], s)
  | some d =>
    if d = "[DONE]".data then
      ([.done (s.usage.getD ⟨0, 0, 0⟩)], s)
    else
      match parse d with
      | none => ([], s)
      | some delta =>
        let evs := match delta.content with
          | some c => if c = "" then [] else [OAIEv.chunk c (jsOrAssistant delta.role)]
          | none => []
        let s' : OAISt := match delta.usage with
          | some u => { usage := some u }
          | none => s
        (evs, s')

/-- The OpenAI/Mistral stream normalizer as a segment machine over the
`"\n\n"` separator. -/
def oaiMachine (parse : List Char → Option OAIDelta) : SegMachine OAISt OAIEv :=
  { trigger := oaiTrigger, step := oaiStep parse }

/-- The fields of one parsed Anthropic stream event the handler reads. -/
inductive AnthWireEv where
  | contentBlockDelta (text : Option String) (dtype : Option String)
  | contentBlockStart (btype : Option String) (id : Option String) (name : Option String)
  | messageStop (usage : Option (Nat × Nat))
  | other
  deriving DecidableEq, Repr

/-- One entry of `accumulatedToolCalls`. -/
structure AnthAcc where
  id : String
  name : String
  inputRaw : String
  deriving DecidableEq, Repr

/-- Handler state of the Anthropic stream normalizer. -/
structure AnthSt where
  currentEventType : Option String
  toolCalls : List AnthAcc
  usage : Option (Nat × Nat)
  deriving DecidableEq, Repr

/-- Unified events emitted by the Anthropic stream normalizer. -/
inductive AnthEv where
  | chunk (content : String) (role : String)
  | toolUseStart (id : Option String) (name : Option String)
  | toolUseDelta (id : String) (delta : String)
  | done (input output total : Nat) (toolCalls : List ToolCallD)
  deriving DecidableEq, Repr

/-- The trigger of the Anthropic handler: a data line parsing to a
`message_stop` event. -/
def anthTrigger (parse : List Char → Option AnthWireEv) (seg : List Char) : Bool :=
  if isBlankSeg seg then false
  else if "event: ".data.isPrefixOf seg then false
  else
    match segData seg with
    | some d =>
      match parse d with
      | some (.messageStop _) => true
      | _ => false
    | none => false

/-- The per-segment body of the Anthropic `data` handler.  `finalizeArgs`
models `JSON.stringify(JSON.parse(inputRaw))` with the catch branch
(yielding the printed empty object on a parse failure); `emptyArgsStr`
is `JSON.stringify({})` used when `inputRaw` is empty. -/
def anthStep (parse : List Char → Option AnthWireEv)
    (finalizeArgs : String → String) (emptyArgsStr : String)
    (s : AnthSt) (seg : List Char) : List AnthEv × AnthSt :=
  if isBlankSeg seg then ([], s)
  else if "event: ".data.isPrefixOf seg then
    ([], { s with currentEventType := some (String.mk (trimChars (seg.drop 7))) })
  else
    match segData seg with
    | none => ([], s)
    | some d =>
      match parse d with
      | none => ([], s)
      | some ev =>
        match ev with
        | .contentBlockDelta text dtype =>
          let evs1 := match text with
            | some t => if t = "" then [] else [AnthEv.chunk t "assistant"]
            | none => []
          let (evs2, s') :=
            if dtype = some "input_json_delta" then
              match s.toolCalls.getLast? with
              | some lastAcc =>
                match text with
                | some t =>
                  if t = "" then ([], s)
                  else
                    ([AnthEv.toolUseDelta lastAcc.id t],
                     { s with toolCalls :=
                         s.toolCalls.dropLast ++
                           [{ lastAcc with inputRaw := lastAcc.inputRaw ++ t }] })
                | none => ([], s)
              | none => ([], s)
            else ([], s)
          (evs1 ++ evs2, s')
        | .contentBlockStart btype id nm =>
          if btype = some "tool_use" then
            ([AnthEv.toolUseStart id nm],
             { s with toolCalls :=
                 s.toolCalls ++ [{ id := id.getD "", name := nm.getD "", inputRaw := "" }] })
          else ([], s)
        | .messageStop u =>
          let s1 : AnthSt := match u with
            | some uu => { s with usage := some uu }
            | none => s
          let fin : Nat × Nat × Nat := match s1.usage with
            | some (i, o) => (i, o, i + o)
            | none => (0, 0, 0)
          let tcs := s1.toolCalls.map (fun tu =>
            ToolCallD.mk tu.id "function" tu.name
              (if tu.inputRaw = "" then emptyArgsStr else finalizeArgs tu.inputRaw))
          ([AnthEv.done fin.1 fin.2.1 fin.2.2 tcs], s1)
        | .other => ([], s)

/-- The Anthropic stream normalizer as a segment machine over the `"\n"`
separator. -/
def anthMachine (parse : List Char → Option AnthWireEv)
    (finalizeArgs : String → String) (emptyArgsStr : String) :
    SegMachine AnthSt AnthEv :=
  { trigger := anthTrigger parse, step := anthStep parse finalizeArgs emptyArgsStr }

/-- Condition under which the early `return` of the trigger branch
cannot matter: among the complete segments of the whole payload, only
the last may be a trigger segment.  Every well-formed provider stream
(terminator last, nothing after it) satisfies this. -/
def noMidTrigger {σ Ev : Type} (M : SegMachine σ Ev) (d payload : List Char) : Prop :=
  ∀ seg ∈ (scanChunk d payload).1.dropLast, M.trigger seg = false

instance {σ Ev : Type} (M : SegMachine σ Ev) (d payload : List Char) :
    Decidable (noMidTrigger M d payload) := by
  unfold noMidTrigger
  infer_instance

/-! ## Lemmas about the JS `Map` model -/

theorem mget_mset_self (k : K) (v : V) (l : List (K × V)) :
    mget k (mset k v l) = some v := by
  induction l with
  | nil => simp [mset, mget]
  | cons p rest ih =>
    obtain ⟨k', v'⟩ := p
    by_cases h : k' = k
    · subst h; simp [mset, mget]
    · simp [mset, mget, h, ih]

theorem mget_mset_ne (k k' : K) (v : V) (l : List (K × V)) (h : k' ≠ k) :
    mget k (mset k' v l) = mget k l := by
  induction l with
  | nil => simp [mset, mget, h]
  | cons p rest ih =>
    obtain ⟨k0, v0⟩ := p
    by_cases h0 : k0 = k'
    · subst h0; simp [mset, mget, h]
    · by_cases h1 : k0 = k
      · subst h1; simp [mset, mget, h0]
      · simp [mset, mget, h0, h1, ih]

theorem mget_eq_none_of_not_mem (k : K) (l : List (K × V)) (h : k ∉ mkeys l) :
    mget k l = none := by
  induction l with
  | nil => simp [mget]
  | cons p rest ih =>
    obtain ⟨k0, v0⟩ := p
    simp only [mkeys, List.map_cons, List.mem_cons] at h
    push_neg at h
    have h0 : k0 ≠ k := Ne.symm h.1
    simp [mget, h0, ih (by simpa [mkeys] using h.2)]

theorem mdel_mset_not_mem (k : K) (v : V) (l : List (K × V)) (h : k ∉ mkeys l) :
    mdel k (mset k v l) = l := by
  induction l with
  | nil => simp [mset, mdel]
  | cons p rest ih =>
    obtain ⟨k0, v0⟩ := p
    simp only [mkeys, List.map_cons, List.mem_cons] at h
    push_neg at h
    have h0 : k0 ≠ k := fun hh => h.1 hh.symm
    simp [mset, mdel, h0, ih (by simpa [mkeys] using h.2)]

theorem mget_mdel_self (k : K) (l : List (K × V)) (h : (mkeys l).Nodup) :
    mget k (mdel k l) = none := by
  induction l with
  | nil => simp [mdel, mget]
  | cons p rest ih =>
    obtain ⟨k0, v0⟩ := p
    rw [mkeys, List.map_cons, List.nodup_cons] at h
    by_cases h0 : k0 = k
    · subst h0
      simp only [mdel, if_pos rfl]
      exact mget_eq_none_of_not_mem _ _ h.1
    · simp only [mdel, if_neg h0, mget, if_neg h0]
      exact ih h.2

/-! ## C10 — sendRequest cleans up the pending table on a failed send -/

/-- C10.  For every call to the tool-protocol client's `sendRequest`,
when the transport-level send of the outbound envelope fails, the
pending-request table entry that was created for the fresh request id is
deleted again and the caller is rejected with the send failure: the
pending table is exactly what it was before the call (the id counter
advance is the only state change), so a failed send never leaves an
orphaned entry.  The hypothesis is the client's invariant that every
pending id was previously allocated. -/
theorem sendRequest_fail_state_unchanged (s : ClientSt) (caller : Nat) (e : String)
    (hb : idsBounded s) :
    (sendRequestStep s caller (.fail e)).1.pending = s.pending ∧
    (sendRequestStep s caller (.fail e)).2 = some e ∧
    (sendRequestStep s caller (.fail e)).1.requestIdCounter = s.requestIdCounter + 1 := by
  refine ⟨?_, rfl, rfl⟩
  have hfresh : s.requestIdCounter + 1 ∉ mkeys s.pending := by
    intro hmem
    simp only [mkeys, List.mem_map] at hmem
    obtain ⟨p, hp, hpk⟩ := hmem
    have := hb p hp
    omega
  simpa [sendRequestStep] using mdel_mset_not_mem (s.requestIdCounter + 1) caller s.pending hfresh

/-- Witness for C10 at a concrete client state. -/
theorem sendRequest_fail_state_unchanged_witness :
    (sendRequestStep ⟨5, [(3, 10)]⟩ 7 (.fail "boom")).1.pending = [(3, 10)] ∧
    (sendRequestStep ⟨5, [(3, 10)]⟩ 7 (.fail "boom")).2 = some "boom" ∧
    (sendRequestStep ⟨5, [(3, 10)]⟩ 7 (.fail "boom")).1.requestIdCounter = 5 + 1 :=
  sendRequest_fail_state_unchanged ⟨5, [(3, 10)]⟩ 7 "boom" (by decide)

/-! ## C1 — the callTool timeout does not retire the pending entry -/

/-- C1 counterexample.  After `sendRequest` allocates id 1 and the
`callTool` timeout fires (winning the `Promise.race`), the pending table
still holds the entry for id 1: a late matching response finds the
pending entry (`pendingRequests.get(id)` succeeds), deletes it then, and
resolves the now-orphaned promise.  This contradicts the claim that the
timeout removes the entry and that the late response is discarded by the
table lookup finding no entry. -/
theorem calltool_timeout_entry_remains :
    mget 1 (timeoutFire (sendRequestStep ⟨0, []⟩ 7 .ok).1).pending = some 7 ∧
    handleResponse (timeoutFire (sendRequestStep ⟨0, []⟩ 7 .ok).1) ⟨some 1, false⟩ =
      (⟨1, []⟩, .resolvedOk 7) := by
  decide

/-- C1 amended.  The pending entry of an outstanding request is retired
at most once, and only by a matching response (or a failed send or
shutdown), never by the `callTool` timeout: the timeout leaves the
pending table untouched, the first matching response finds the entry,
deletes it and resolves the (by then unobserved) promise, and any second
response with the same id finds no entry and is dropped with the state
unchanged. -/
theorem calltool_timeout_then_late_response (s : ClientSt) (i c : Nat)
    (hk : (mkeys s.pending).Nodup) (hp : mget i s.pending = some c) :
    mget i (timeoutFire s).pending = some c ∧
    (handleResponse (timeoutFire s) ⟨some i, false⟩).2 = .resolvedOk c ∧
    mget i (handleResponse (timeoutFire s) ⟨some i, false⟩).1.pending = none ∧
    handleResponse (handleResponse (timeoutFire s) ⟨some i, false⟩).1 ⟨some i, false⟩ =
      ((handleResponse (timeoutFire s) ⟨some i, false⟩).1, .droppedUnknown) := by
  have hdel : mget i (mdel i s.pending) = none := mget_mdel_self i s.pending hk
  refine ⟨hp, ?_, ?_, ?_⟩
  · simp [timeoutFire, handleResponse, hp]
  · simp [timeoutFire, handleResponse, hp, hdel]
  · simp [timeoutFire, handleResponse, hp, hdel]

/-- Witness for the amended C1 at a concrete client state. -/
theorem calltool_timeout_then_late_response_witness :
    mget 1 (timeoutFire (⟨1, [(1, 7)]⟩ : ClientSt)).pending = some 7 ∧
    (handleResponse (timeoutFire ⟨1, [(1, 7)]⟩) ⟨some 1, false⟩).2 = .resolvedOk 7 ∧
    mget 1 (handleResponse (timeoutFire ⟨1, [(1, 7)]⟩) ⟨some 1, false⟩).1.pending = none ∧
    handleResponse (handleResponse (timeoutFire ⟨1, [(1, 7)]⟩) ⟨some 1, false⟩).1 ⟨some 1, false⟩ =
      ((handleResponse (timeoutFire ⟨1, [(1, 7)]⟩) ⟨some 1, false⟩).1, .droppedUnknown) :=
  calltool_timeout_then_late_response ⟨1, [(1, 7)]⟩ 1 7 (by decide) (by decide)

/-! ## C6 — per-server failure modes of manager initialization

`MCPManager.initializeServers` wraps `createMCPClient(config)` and
`client.initialize()` in a `try`/`catch`.  Construction and handshake
failures throw out of `initialize()` and reach that catch.  Tool
discovery does not: `MCPClient.refreshTools` (part_001 385-400) catches
a `tools/list` failure inside the client, logs it and sets
`this.tools = []`, after which `initialize()` still reaches
`setState("ready")` and returns success — the manager registers the
server with zero tools. -/

/-- How one configured server's client behaves across construction,
handshake and tool discovery — the three stages the claim names. -/
inductive ClientInitBehavior where
  | connectFail (err : String)
  | discoveryFail (err : String)
  | ok (tools : List MCPToolD)
  deriving DecidableEq, Repr

/-- `MCPClient.refreshTools`: the `tools/list` result becomes the tool
list; a failure is caught inside the client — logged there and replaced
by the empty list — and never propagates to the caller. -/
def refreshTools : Except String (List MCPToolD) → List MCPToolD
  | .ok ts => ts
  | .error _ => []

/-- The outcome `MCPClient.initialize` presents to the manager's
`try`/`catch`: construction/handshake failures throw (`.fail`); a
discovery failure is absorbed by `refreshTools`, so `initialize`
succeeds and `getTools()` returns the empty list. -/
def clientInitOutcome : ClientInitBehavior → InitOutcome
  | .connectFail e => .fail e
  | .discoveryFail e => .ok (refreshTools (.error e))
  | .ok ts => .ok (refreshTools (.ok ts))

theorem initServerStep_fail_ct (oracle : MCPServerCfg → InitOutcome) (st : ManagerSt)
    (cfg : MCPServerCfg) (e : String) (h : oracle cfg = .fail e) :
    (initServerStep oracle st cfg).clients = st.clients ∧
    (initServerStep oracle st cfg).tools = st.tools := by
  simp [initServerStep, h]

theorem initServerStep_ct_congr (oracle : MCPServerCfg → InitOutcome) (cfg : MCPServerCfg)
    (s s' : ManagerSt) (hc : s.clients = s'.clients) (ht : s.tools = s'.tools) :
    (initServerStep oracle s cfg).clients = (initServerStep oracle s' cfg).clients ∧
    (initServerStep oracle s cfg).tools = (initServerStep oracle s' cfg).tools := by
  cases hcase : oracle cfg <;> simp [initServerStep, hcase, hc, ht]

theorem foldl_initServerStep_ct_congr (oracle : MCPServerCfg → InitOutcome)
    (L : List MCPServerCfg) (s s' : ManagerSt)
    (hc : s.clients = s'.clients) (ht : s.tools = s'.tools) :
    (L.foldl (initServerStep oracle) s).clients = (L.foldl (initServerStep oracle) s').clients ∧
    (L.foldl (initServerStep oracle) s).tools = (L.foldl (initServerStep oracle) s').tools := by
  induction L generalizing s s' with
  | nil => exact ⟨hc, ht⟩
  | cons c rest ih =>
    have h := initServerStep_ct_congr oracle c s s' hc ht
    exact ih _ _ h.1 h.2

/-- A concrete behavior assignment: server `d` fails tool discovery,
every other server succeeds with one tool. -/
def c6Behavior : MCPServerCfg → ClientInitBehavior :=
  fun c =>
    if c.name = "d" then .discoveryFail "tools list failed"
    else .ok [⟨"t_" ++ c.name, "sch"⟩]

/-- C6 counterexample.  A tool-discovery failure does not skip the
server: `refreshTools` absorbs the `tools/list` failure inside the
client, so `initialize()` succeeds with an empty tool list and the
manager registers the server — after running a list in which server `d`
fails discovery, `d` is present in the clients table (with zero tools)
and nothing reached the manager's error log.  This contradicts the
claim that a tool-discovery failure causes the server to be logged by
the manager and skipped. -/
theorem discovery_failure_not_skipped :
    clientInitOutcome (.discoveryFail "tools list failed") = .ok [] ∧
    mget "d" (initServers (fun c => clientInitOutcome (c6Behavior c))
      [⟨"s1"⟩, ⟨"d"⟩, ⟨"s2"⟩]).clients = some [] ∧
    (initServers (fun c => clientInitOutcome (c6Behavior c))
      [⟨"s1"⟩, ⟨"d"⟩, ⟨"s2"⟩]).errlog = [] := by
  decide

/-- C6 amended.  A failure while constructing or handshaking one
configured server throws into `initializeServers`' catch: it is logged
and that server is skipped, while the clients table and the tool
registry after running the whole list equal those of the run without
the failing entry — every remaining server still initializes.  A
tool-discovery failure, by contrast, is caught inside the client
(logged there, the tool list replaced by the empty list), so the
manager registers that server with zero tools rather than skipping it,
adds nothing to the tool registry for it, and logs nothing.  And
`callTool` with a name registered by no server fails with the
`Tool not found` error straight from the registry lookup, contacting no
server. -/
theorem manager_init_failure_modes (behavior : MCPServerCfg → ClientInitBehavior)
    (A B : List MCPServerCfg) (cfg : MCPServerCfg) (e : String)
    (st : ManagerSt) (nm : String)
    (hfail : behavior cfg = .connectFail e)
    (hnone : mget nm st.tools = none) :
    ((initServers (fun c => clientInitOutcome (behavior c)) (A ++ cfg :: B)).clients =
       (initServers (fun c => clientInitOutcome (behavior c)) (A ++ B)).clients ∧
     (initServers (fun c => clientInitOutcome (behavior c)) (A ++ cfg :: B)).tools =
       (initServers (fun c => clientInitOutcome (behavior c)) (A ++ B)).tools) ∧
    (∀ (cfg' : MCPServerCfg) (e' : String) (st' : ManagerSt),
      behavior cfg' = .discoveryFail e' →
      (initServerStep (fun c => clientInitOutcome (behavior c)) st' cfg').clients =
        mset cfg'.name [] st'.clients ∧
      (initServerStep (fun c => clientInitOutcome (behavior c)) st' cfg').tools =
        st'.tools ∧
      (initServerStep (fun c => clientInitOutcome (behavior c)) st' cfg').errlog =
        st'.errlog) ∧
    managerCallTool st nm = .notFound ("Tool not found: " ++ nm) := by
  refine ⟨?_, ?_, ?_⟩
  · have h : clientInitOutcome (behavior cfg) = .fail e := by rw [hfail]; rfl
    unfold initServers
    rw [List.foldl_append, List.foldl_append, List.foldl_cons]
    have hstep := initServerStep_fail_ct (fun c => clientInitOutcome (behavior c))
      (A.foldl (initServerStep (fun c => clientInitOutcome (behavior c))) ⟨[], [], []⟩) cfg e h
    exact foldl_initServerStep_ct_congr (fun c => clientInitOutcome (behavior c)) B _ _
      hstep.1 hstep.2
  · intro cfg' e' st' hd'
    simp [initServerStep, clientInitOutcome, refreshTools, regTools, hd']
  · simp [managerCallTool, hnone]

/-- A concrete behavior assignment for the C6 witness: server `bad`
fails its handshake, server `d` fails tool discovery, the rest succeed
with one tool each. -/
def c6WitnessBehavior : MCPServerCfg → ClientInitBehavior :=
  fun c =>
    if c.name = "bad" then .connectFail "spawn error"
    else if c.name = "d" then .discoveryFail "tools list failed"
    else .ok [⟨"t_" ++ c.name, "sch"⟩]

/-- Witness for the amended C6 at a concrete configuration list and
registry. -/
theorem manager_init_failure_modes_witness :
    ((initServers (fun c => clientInitOutcome (c6WitnessBehavior c))
        [⟨"s1"⟩, ⟨"bad"⟩, ⟨"s2"⟩]).clients =
       (initServers (fun c => clientInitOutcome (c6WitnessBehavior c))
        [⟨"s1"⟩, ⟨"s2"⟩]).clients ∧
     (initServers (fun c => clientInitOutcome (c6WitnessBehavior c))
        [⟨"s1"⟩, ⟨"bad"⟩, ⟨"s2"⟩]).tools =
       (initServers (fun c => clientInitOutcome (c6WitnessBehavior c))
        [⟨"s1"⟩, ⟨"s2"⟩]).tools) ∧
    (∀ (cfg' : MCPServerCfg) (e' : String) (st' : ManagerSt),
      c6WitnessBehavior cfg' = .discoveryFail e' →
      (initServerStep (fun c => clientInitOutcome (c6WitnessBehavior c)) st' cfg').clients =
        mset cfg'.name [] st'.clients ∧
      (initServerStep (fun c => clientInitOutcome (c6WitnessBehavior c)) st' cfg').tools =
        st'.tools ∧
      (initServerStep (fun c => clientInitOutcome (c6WitnessBehavior c)) st' cfg').errlog =
        st'.errlog) ∧
    managerCallTool ⟨[("s1", [⟨"t_s1", "sch"⟩])], [("t_s1", ("s1", ⟨"t_s1", "sch"⟩))], []⟩
        "nope" = .notFound ("Tool not found: " ++ "nope") :=
  manager_init_failure_modes c6WitnessBehavior [⟨"s1"⟩] [⟨"s2"⟩] ⟨"bad"⟩ "spawn error"
    ⟨[("s1", [⟨"t_s1", "sch"⟩])], [("t_s1", ("s1", ⟨"t_s1", "sch"⟩))], []⟩ "nope"
    (by decide) (by decide)

/-! ## C7 — tool-name collisions: the later registration wins silently -/

theorem mget_regTools (srv : String) (ts : List MCPToolD)
    (m : List (String × (String × MCPToolD))) (k : String) :
    mget k (regTools srv ts m) =
      match lastNamed k ts with
      | some t => some (srv, t)
      | none => mget k m := by
  induction ts generalizing m with
  | nil => simp [regTools, lastNamed]
  | cons t rest ih =>
    have hunfold : regTools srv (t :: rest) m =
        regTools srv rest (mset t.name (srv, t) m) := rfl
    rw [hunfold, ih]
    cases hrest : lastNamed k rest with
    | some r => simp [lastNamed, hrest]
    | none =>
      by_cases hname : t.name = k
      · subst hname
        simp [lastNamed, hrest, mget_mset_self]
      · simp [lastNamed, hrest, hname, mget_mset_ne k t.name _ m hname]

/-- C7.  When two configured servers both advertise a tool of the same
name, the registry built by `initializeServers` maps that name to the
later-registered server's entry: after the first server the name maps to
its tool, after both it maps to the second server's tool, and the error
log stays empty — the collision produces no diagnostic. -/
theorem registry_collision_later_wins (oracle : MCPServerCfg → InitOutcome)
    (c1 c2 : MCPServerCfg) (ts1 ts2 : List MCPToolD) (t1 t2 : MCPToolD) (k : String)
    (h1 : oracle c1 = .ok ts1) (h2 : oracle c2 = .ok ts2)
    (hl1 : lastNamed k ts1 = some t1) (hl2 : lastNamed k ts2 = some t2) :
    mget k (initServers oracle [c1]).tools = some (c1.name, t1) ∧
    mget k (initServers oracle [c1, c2]).tools = some (c2.name, t2) ∧
    (initServers oracle [c1, c2]).errlog = [] := by
  refine ⟨?_, ?_, ?_⟩
  · simp [initServers, initServerStep, h1, mget_regTools, hl1]
  · simp [initServers, initServerStep, h1, h2, mget_regTools, hl2]
  · simp [initServers, initServerStep, h1, h2]

/-- Witness for C7: two servers advertising the tool name `dup`. -/
theorem registry_collision_later_wins_witness :
    mget "dup" (initServers
      (fun c => if c.name = "a" then .ok [⟨"dup", "sa"⟩] else .ok [⟨"dup", "sb"⟩])
      [⟨"a"⟩]).tools = some ("a", ⟨"dup", "sa"⟩) ∧
    mget "dup" (initServers
      (fun c => if c.name = "a" then .ok [⟨"dup", "sa"⟩] else .ok [⟨"dup", "sb"⟩])
      [⟨"a"⟩, ⟨"b"⟩]).tools = some ("b", ⟨"dup", "sb"⟩) ∧
    (initServers
      (fun c => if c.name = "a" then .ok [⟨"dup", "sa"⟩] else .ok [⟨"dup", "sb"⟩])
      [⟨"a"⟩, ⟨"b"⟩]).errlog = [] :=
  registry_collision_later_wins
    (fun c => if c.name = "a" then .ok [⟨"dup", "sa"⟩] else .ok [⟨"dup", "sb"⟩])
    ⟨"a"⟩ ⟨"b"⟩ [⟨"dup", "sa"⟩] [⟨"dup", "sb"⟩] ⟨"dup", "sa"⟩ ⟨"dup", "sb"⟩ "dup"
    (by decide) (by decide) (by decide) (by decide)

/-! ## C8 — push-channel reconnection backoff -/

theorem handleReconnect_allfail (maxA base : Nat) :
    ∀ n a, n = maxA - a → a ≤ maxA →
    handleReconnect maxA base (fun _ => false) a =
      { delays := (List.range (maxA - a)).map (fun i => base * 2 ^ (a + i)),
        errorState := true, errorEvents := 1, finalAttempts := maxA } := by
  intro n
  induction n with
  | zero =>
    intro a hn ha
    have hge : maxA ≤ a := by omega
    have hao : a = maxA := by omega
    rw [handleReconnect]
    simp [hge, hn.symm, hao]
  | succ k ih =>
    intro a hn ha
    have hlt : a < maxA := by omega
    rw [handleReconnect]
    simp only [Nat.not_le.mpr hlt, if_false]
    rw [ih (a + 1) (by omega) (by omega)]
    have hk2 : maxA - (a + 1) = k := by omega
    have hr : maxA - a = k + 1 := by omega
    simp only [Bool.false_eq_true, if_false, hk2, hr, List.range_succ_eq_map, List.map_cons,
      List.map_map, ReconnectResult.mk.injEq, Nat.add_sub_cancel, Nat.add_zero, and_true,
      List.cons.injEq, true_and]
    apply List.map_congr_left
    intro i _
    simp only [Function.comp_apply]
    have hi : a + 1 + i = a + Nat.succ i := by omega
    rw [hi]

theorem handleReconnect_delays_shape (maxA base : Nat) (oracle : Nat → Bool) :
    ∀ n a, n = maxA - a →
    ∃ k, k ≤ maxA - a ∧
      (handleReconnect maxA base oracle a).delays =
        (List.range k).map (fun i => base * 2 ^ (a + i)) := by
  intro n
  induction n with
  | zero =>
    intro a hn
    have hge : maxA ≤ a := by omega
    refine ⟨0, by omega, ?_⟩
    rw [handleReconnect]
    simp [hge]
  | succ k ih =>
    intro a hn
    have hlt : a < maxA := by omega
    rw [handleReconnect]
    simp only [Nat.not_le.mpr hlt, if_false]
    cases hor : oracle (a + 1) with
    | true =>
      refine ⟨1, by omega, ?_⟩
      simp [List.range_succ]
    | false =>
      obtain ⟨k', hk', hd⟩ := ih (a + 1) (by omega)
      refine ⟨k' + 1, by omega, ?_⟩
      simp only [hd, Bool.false_eq_true, if_false, List.range_succ_eq_map, List.map_cons,
        List.map_map, Nat.add_sub_cancel, Nat.add_zero, List.cons.injEq, true_and]
      apply List.map_congr_left
      intro i _
      simp only [Function.comp_apply]
      have hi : a + 1 + i = a + Nat.succ i := by omega
      rw [hi]

/-- C8.  A dropped push channel triggers `handleReconnect`: the delay
waited before attempt `n` is `reconnectDelay * 2 ^ (n - 1)` (the delays
list position `i` holds `base * 2 ^ i`), at most `maxReconnectAttempts`
attempts are made for any pattern of attempt outcomes, and when every
attempt fails the cascade makes exactly the cap's number of attempts and
then is terminal: the client is left in the `error` state with one
emitted error event and no further reconnection attempt. -/
theorem sse_reconnect_backoff (maxA base : Nat) (oracle : Nat → Bool) :
    handleReconnect maxA base (fun _ => false) 0 =
      { delays := (List.range maxA).map (fun i => base * 2 ^ i),
        errorState := true, errorEvents := 1, finalAttempts := maxA } ∧
    (∃ k, k ≤ maxA ∧ (handleReconnect maxA base oracle 0).delays =
        (List.range k).map (fun i => base * 2 ^ i)) ∧
    (handleReconnect maxA base oracle 0).delays.length ≤ maxA := by
  have h1 := handleReconnect_allfail maxA base (maxA - 0) 0 rfl (by omega)
  have h2 := handleReconnect_delays_shape maxA base oracle (maxA - 0) 0 rfl
  constructor
  · simpa using h1
  constructor
  · obtain ⟨k, hk, hd⟩ := h2
    exact ⟨k, by omega, by simpa using hd⟩
  · obtain ⟨k, hk, hd⟩ := h2
    rw [hd]
    simp
    omega

/-! ## C2 — the continuation loop returns in its first iteration -/

/-- A provider that always answers with one tool call and never a final
answer (cost snapshots are numbered). -/
def alwaysToolsOracle : Nat → Except String (ProviderResp Nat) :=
  fun _ => .ok
    { content := none,
      tool_calls := some [⟨"call_1", "function", "get_weather", "null"⟩],
      usage := some ⟨some 10, some 5, none, none, some 15⟩,
      cost := some 1 }

/-- C2 counterexample.  Driven by a provider that always returns tool
calls, `handleAutoToolContinuation` with the bound 10 does not run 10
iterations and does not report the iteration-limit error: it returns
during iteration 0 — reporting `iterations: 1` — with the tool calls and
the informational note asking the caller to supply `tool_results`,
because the loop body executes `return` on the tool-call branch instead
of executing the tools and continuing. -/
theorem continuation_loop_stops_first_iteration :
    handleAutoToolContinuation alwaysToolsOracle 10 =
      .toolCallsDetected ⟨10, 5, 0, 0, 15⟩ (some 1) 1
        [⟨"call_1", "function", "get_weather", "null"⟩] ∧
    isMaxIterations (handleAutoToolContinuation alwaysToolsOracle 10) = false ∧
    iterationsReported (handleAutoToolContinuation alwaysToolsOracle 10) = some 1 := by
  decide

/-- C2 amended.  With any bound of at least one, a provider whose first
reply carries tool calls makes the loop terminate after exactly one
iteration with the tool-calls response (accumulated usage of that single
reply, its cost snapshot, `iterations: 1`); the iteration-limit branch
(`Max tool continuation iterations reached`) is unreachable for every
provider behaviour, because every path of the loop body returns. -/
theorem continuation_loop_amended {γ : Type} (oracle : Nat → Except String (ProviderResp γ))
    (maxIter : Nat) (r : ProviderResp γ) (tc : ToolCallD) (tcs : List ToolCallD)
    (hmax : 1 ≤ maxIter) (h0 : oracle 0 = .ok r) (htc : r.tool_calls = some (tc :: tcs)) :
    handleAutoToolContinuation oracle maxIter =
      .toolCallsDetected (accumUsage zeroUsageAcc r.usage) (updateCost none r.cost) 1
        (tc :: tcs) ∧
    ∀ oracle' : Nat → Except String (ProviderResp γ),
      isMaxIterations (handleAutoToolContinuation oracle' maxIter) = false := by
  have hlt : 0 < maxIter := hmax
  constructor
  · simp [handleAutoToolContinuation, autoGo, hlt, h0, htc]
  · intro oracle'
    cases ho : oracle' 0 with
    | error e => simp [handleAutoToolContinuation, autoGo, hlt, ho, isMaxIterations]
    | ok resp =>
      cases htc' : resp.tool_calls with
      | none => simp [handleAutoToolContinuation, autoGo, hlt, ho, htc', isMaxIterations]
      | some l =>
        by_cases hl : l.length > 0 <;>
          simp [handleAutoToolContinuation, autoGo, hlt, ho, htc', hl, isMaxIterations]

/-- Witness for the amended C2 at the concrete always-tools provider. -/
theorem continuation_loop_amended_witness :
    handleAutoToolContinuation alwaysToolsOracle 10 =
      .toolCallsDetected
        (accumUsage zeroUsageAcc (some ⟨some 10, some 5, none, none, some 15⟩))
        (updateCost none (some 1)) 1
        [⟨"call_1", "function", "get_weather", "null"⟩] ∧
    ∀ oracle' : Nat → Except String (ProviderResp Nat),
      isMaxIterations (handleAutoToolContinuation oracle' 10) = false :=
  continuation_loop_amended alwaysToolsOracle 10
    { content := none,
      tool_calls := some [⟨"call_1", "function", "get_weather", "null"⟩],
      usage := some ⟨some 10, some 5, none, none, some 15⟩,
      cost := some 1 }
    ⟨"call_1", "function", "get_weather", "null"⟩ [] (by omega) rfl rfl

/-! ## C9 — usage summed per-field, cost keeps the latest snapshot -/

theorem foldl_accumUsage (us : List (Option UsageT)) (acc : UsageAcc) :
    us.foldl accumUsage acc =
      ⟨acc.prompt_tokens + (us.map fun u => ((u.bind UsageT.prompt_tokens).getD 0)).sum,
       acc.completion_tokens + (us.map fun u => ((u.bind UsageT.completion_tokens).getD 0)).sum,
       acc.input_tokens + (us.map fun u => ((u.bind UsageT.input_tokens).getD 0)).sum,
       acc.output_tokens + (us.map fun u => ((u.bind UsageT.output_tokens).getD 0)).sum,
       acc.total_tokens + (us.map fun u => ((u.bind UsageT.total_tokens).getD 0)).sum⟩ := by
  induction us generalizing acc with
  | nil => simp
  | cons u rest ih =>
    rw [List.foldl_cons, ih]
    cases u with
    | none => simp [accumUsage, UsageAcc.mk.injEq]
    | some uu => simp [accumUsage, UsageAcc.mk.injEq, Nat.add_assoc]

theorem foldl_updateCost {γ : Type} (cs : List (Option γ)) (t : Option γ) :
    cs.foldl updateCost t =
      match lastSnapshot cs with
      | some x => some x
      | none => t := by
  induction cs generalizing t with
  | nil => simp [lastSnapshot]
  | cons c rest ih =>
    rw [List.foldl_cons, ih]
    cases c with
    | none => simp [lastSnapshot, updateCost]
    | some x =>
      cases hfm : rest.filterMap id with
      | nil => simp [lastSnapshot, hfm, updateCost]
      | cons y l =>
        simp [lastSnapshot, hfm, updateCost, List.getLast?_cons_cons]
        cases hg : (y :: l).getLast? with
        | none => simp at hg
        | some z => simp [hg]

/-- C9.  Across the per-iteration accumulation steps of one
orchestration run, every optional usage field (prompt, completion,
input, output, total) is summed per-field with an absent value counting
as zero, and `totalCost` ends as the latest non-null per-iteration cost
snapshot: cost is replaced each iteration, never summed. -/
theorem usage_summed_cost_latest {γ : Type}
    (us : List (Option UsageT)) (cs : List (Option γ)) :
    us.foldl accumUsage zeroUsageAcc =
      ⟨(us.map fun u => ((u.bind UsageT.prompt_tokens).getD 0)).sum,
       (us.map fun u => ((u.bind UsageT.completion_tokens).getD 0)).sum,
       (us.map fun u => ((u.bind UsageT.input_tokens).getD 0)).sum,
       (us.map fun u => ((u.bind UsageT.output_tokens).getD 0)).sum,
       (us.map fun u => ((u.bind UsageT.total_tokens).getD 0)).sum⟩ ∧
    cs.foldl updateCost none = lastSnapshot cs := by
  constructor
  · simpa [zeroUsageAcc] using foldl_accumUsage us zeroUsageAcc
  · rw [foldl_updateCost]
    cases lastSnapshot cs <;> rfl

/-! ## C5 — only the Anthropic adapter derives the total token count -/

/-- C5 counterexample.  A provider reply whose usage lacks
`total_tokens` but carries `prompt_tokens: 3` and `completion_tokens: 4`
yields canonical `total_tokens = 0` from the OpenAI and Mistral adapters
(`usage?.total_tokens ?? 0`), not the derived 7: the total is left zero
rather than derived from the per-direction fields. -/
theorem usage_total_not_derived :
    extractOpenAIUsage (some ⟨some 3, some 4, none⟩) = ⟨3, 4, 0⟩ ∧
    extractMistralUsage (some ⟨some 3, some 4, none⟩) = ⟨3, 4, 0⟩ ∧
    (3 : Nat) + 4 ≠ 0 := by
  decide

/-- C5 amended.  Of the three adapters only the Anthropic one derives
the canonical total (`input + output`, always); the OpenAI and Mistral
adapters copy the wire total and default an absent total to zero instead
of deriving it from the per-direction fields. -/
theorem usage_total_amended (p c : Option Nat) (v : Option WireInOutUsage) :
    (extractOpenAIUsage (some ⟨p, c, none⟩)).total_tokens = 0 ∧
    (extractMistralUsage (some ⟨p, c, none⟩)).total_tokens = 0 ∧
    (extractAnthropicUsage v).total_tokens =
      (extractAnthropicUsage v).input_tokens + (extractAnthropicUsage v).output_tokens :=
  ⟨rfl, rfl, rfl⟩

/-! ## C3 — converter round trips -/

theorem copyToolCall_id : copyToolCall = id := by
  funext tc
  rfl

/-- C3 counterexample.  `messagesToAnthropic` folds a system message
into a user turn: the wire images of a system message and of a user
message with the same text are identical, so no reply extraction can
reproduce the system role — and the actual extraction fixes the role to
`assistant`, so the round trip of the system message does not return
role `system`.  (The system-message path evaluates neither `JSON.parse`
nor `JSON.stringify`; they are instantiated trivially here.) -/
theorem anthropic_roundtrip_drops_system_role :
    messageToAnthropic (J := Unit) (fun _ => some ()) (fun _ => "x")
        ⟨.system, .str "be nice", none, none, none⟩ =
      messageToAnthropic (fun _ => some ()) (fun _ => "x")
        ⟨.user, .str "be nice", none, none, none⟩ ∧
    (⟨.system, .str "be nice", none, none, none⟩ : MessageD Unit).role ≠
      (⟨.user, .str "be nice", none, none, none⟩ : MessageD Unit).role ∧
    (roundTripAnthropic (J := Unit) (fun _ => some ()) (fun _ => "x") (fun _ => "x")
        ⟨.system, .str "be nice", none, none, none⟩).map CanonReply.role ≠
      some Role.system := by
  decide

theorem roundTripOpenAI_assistant {J : Type} (m : MessageD J)
    (hrole : m.role = .assistant) (hc : contentOk m = true) (htc : toolCallsOk m = true) :
    roundTripOpenAI m = ⟨m.role, wireContentAsReply m.content, m.tool_calls⟩ := by
  obtain ⟨role, content, tcs, tcid, nm⟩ := m
  simp only at hrole
  subst hrole
  cases tcs with
  | none =>
    cases content with
    | str s =>
      have hs : s ≠ "" := by simpa [contentOk] using hc
      simp [roundTripOpenAI, messageToOpenAI, fromOpenAIReply, openAIToolCallsToUnified,
        wireContentAsReply, jsOrNull, hs]
    | null =>
      simp [roundTripOpenAI, messageToOpenAI, fromOpenAIReply, openAIToolCallsToUnified,
        wireContentAsReply, jsOrNull]
    | blocks bs => simp [contentOk] at hc
  | some l =>
    have hl : l ≠ [] := by
      simpa [toolCallsOk, List.isEmpty_iff] using htc
    have hlen : ¬ l.length = 0 := by
      simpa [List.length_eq_zero] using hl
    cases content with
    | str s =>
      have hs : s ≠ "" := by simpa [contentOk] using hc
      simp [roundTripOpenAI, messageToOpenAI, fromOpenAIReply, openAIToolCallsToUnified,
        wireContentAsReply, jsOrNull, hs, copyToolCall_id, hlen]
    | null =>
      simp [roundTripOpenAI, messageToOpenAI, fromOpenAIReply, openAIToolCallsToUnified,
        wireContentAsReply, jsOrNull, copyToolCall_id, hlen]
    | blocks bs => simp [contentOk] at hc

theorem roundTripMistral_assistant {J : Type} (m : MessageD J)
    (hrole : m.role = .assistant) (hc : contentOk m = true) (htc : toolCallsOk m = true) :
    roundTripMistral m = ⟨m.role, wireContentAsReply m.content, m.tool_calls⟩ := by
  obtain ⟨role, content, tcs, tcid, nm⟩ := m
  simp only at hrole
  subst hrole
  cases tcs with
  | none =>
    cases content with
    | str s =>
      have hs : s ≠ "" := by simpa [contentOk] using hc
      simp [roundTripMistral, messageToMistral, fromMistralReply, mistralToolCallsToUnified,
        wireContentAsReply, jsOrNull, hs]
    | null =>
      simp [roundTripMistral, messageToMistral, fromMistralReply, mistralToolCallsToUnified,
        wireContentAsReply, jsOrNull]
    | blocks bs => simp [contentOk] at hc
  | some l =>
    have hl : l ≠ [] := by
      simpa [toolCallsOk, List.isEmpty_iff] using htc
    have hlen : ¬ l.length = 0 := by
      simpa [List.length_eq_zero] using hl
    cases content with
    | str s =>
      have hs : s ≠ "" := by simpa [contentOk] using hc
      simp [roundTripMistral, messageToMistral, fromMistralReply, mistralToolCallsToUnified,
        wireContentAsReply, jsOrNull, hs, copyToolCall_id, hlen]
    | null =>
      simp [roundTripMistral, messageToMistral, fromMistralReply, mistralToolCallsToUnified,
        wireContentAsReply, jsOrNull, copyToolCall_id, hlen]
    | blocks bs => simp [contentOk] at hc

theorem parseToolUses_stable {J : Type} (jparse : String → Option J) (jprint : J → String) :
    ∀ l : List ToolCallD,
    (∀ tc ∈ l, ∃ j, jparse tc.arguments = some j ∧ jprint j = tc.arguments) →
    ∃ tus, parseToolUses jparse l = some tus ∧
      tus.filterMap (fun b => match b with
        | .toolUse id nm inp => some (ToolCallD.mk id "function" nm (jprint inp))
        | _ => none) =
        l.map (fun tc => ToolCallD.mk tc.id "function" tc.fname tc.arguments) ∧
      tus.find? (fun b => match b with | .text _ => true | _ => false) = none := by
  intro l
  induction l with
  | nil => intro _; exact ⟨[], rfl, rfl, rfl⟩
  | cons tc rest ih =>
    intro h
    obtain ⟨j, hj, hpj⟩ := h tc (by simp)
    obtain ⟨tus, htus, hfm, hfind⟩ := ih (fun x hx => h x (by simp [hx]))
    refine ⟨ABlock.toolUse tc.id tc.fname j :: tus, ?_, ?_, ?_⟩
    · simp [parseToolUses, hj, htus]
    · simp [hfm, hpj]
    · simpa [List.find?] using hfind

theorem roundTripAnthropic_assistant {J : Type} (jparse : String → Option J)
    (jdump : MsgContent J → String) (jprint : J → String) (m : MessageD J)
    (l : List ToolCallD)
    (hrole : m.role = .assistant) (hc : contentOk m = true)
    (htc : m.tool_calls = some l) (hne : l ≠ [])
    (hargs : ∀ tc ∈ l, tc.ctype = "function" ∧
      ∃ j, jparse tc.arguments = some j ∧ jprint j = tc.arguments) :
    roundTripAnthropic jparse jdump jprint m =
      some ⟨.assistant, wireContentAsReply m.content, some l⟩ := by
  obtain ⟨tus, htus, hfm, hfind⟩ :=
    parseToolUses_stable jparse jprint l (fun tc h => (hargs tc h).2)
  have hmap : l.map (fun tc => ToolCallD.mk tc.id "function" tc.fname tc.arguments) = l := by
    have hpt : ∀ tc ∈ l, ToolCallD.mk tc.id "function" tc.fname tc.arguments = id tc := by
      intro tc h
      have hct := (hargs tc h).1
      cases tc with
      | mk i ct fn ar =>
        simp only at hct
        simp [hct]
    rw [List.map_congr_left hpt, List.map_id]
  have hlen : ¬ l.length = 0 := by simpa [List.length_eq_zero] using hne
  have htu : List.filterMap (fun b => match b with
      | .toolUse id nm inp => some (ToolCallD.mk id "function" nm (jprint inp))
      | _ => none) tus = l := by rw [hfm, hmap]
  have hex : ∃ x ∈ tus, ¬(match x with
      | .toolUse id nm inp => some (ToolCallD.mk id "function" nm (jprint inp))
      | _ => none) = none := by
    by_contra hno
    push_neg at hno
    have hnil : List.filterMap (fun b => match b with
        | .toolUse id nm inp => some (ToolCallD.mk id "function" nm (jprint inp))
        | _ => none) tus = [] := by
      rw [List.filterMap_eq_nil_iff]
      intro a ha
      simpa using hno a ha
    rw [htu] at hnil
    exact hne hnil
  obtain ⟨role, content, tcs, tcid, nm⟩ := m
  simp only at hrole htc
  subst hrole
  subst htc
  cases content with
  | str s =>
    have hs : s ≠ "" := by simpa [contentOk] using hc
    simp [roundTripAnthropic, messageToAnthropic, fromAnthropicReply, anthTextContent,
      anthropicToolUseToUnified, wireContentAsReply, jsOrNull, hs, htus, htu,
      List.filterMap_append, List.find?, hlen, hne, hfind]
    exact hex
  | null =>
    simp [roundTripAnthropic, messageToAnthropic, fromAnthropicReply, anthTextContent,
      anthropicToolUseToUnified, wireContentAsReply, jsOrNull, htus, htu,
      List.filterMap_append, hlen, hne, hfind]
    exact hex
  | blocks bs => simp [contentOk] at hc

/-- C3 amended.  For the OpenAI and Mistral mappings, converting an
assistant message (content `null` or a nonempty string; tool calls
absent or a nonempty list) to the wire shape and back through the
adapter's reply extraction reproduces its role, its text content and its
tool calls exactly.  For the Anthropic mapping the same holds for
assistant messages whose tool-call arguments are JSON-stable strings
(`JSON.stringify (JSON.parse s) = s`): text content and the tool calls
(id, name, type, arguments) are reproduced and the role comes back as
`assistant` — but system (and tool) messages are folded into user-role
wire shapes, so their role is not reproduced (see the counterexample). -/
theorem converter_roundtrip_amended {J : Type} (jparse : String → Option J)
    (jdump : MsgContent J → String) (jprint : J → String) :
    (∀ m : MessageD J, m.role = .assistant → contentOk m = true → toolCallsOk m = true →
      roundTripOpenAI m = ⟨m.role, wireContentAsReply m.content, m.tool_calls⟩) ∧
    (∀ m : MessageD J, m.role = .assistant → contentOk m = true → toolCallsOk m = true →
      roundTripMistral m = ⟨m.role, wireContentAsReply m.content, m.tool_calls⟩) ∧
    (∀ (m : MessageD J) (l : List ToolCallD),
      m.role = .assistant → contentOk m = true → m.tool_calls = some l → l ≠ [] →
      (∀ tc ∈ l, tc.ctype = "function" ∧
        ∃ j, jparse tc.arguments = some j ∧ jprint j = tc.arguments) →
      roundTripAnthropic jparse jdump jprint m =
        some ⟨.assistant, wireContentAsReply m.content, some l⟩) :=
  ⟨fun m h1 h2 h3 => roundTripOpenAI_assistant m h1 h2 h3,
   fun m h1 h2 h3 => roundTripMistral_assistant m h1 h2 h3,
   fun m l h1 h2 h3 h4 h5 => roundTripAnthropic_assistant jparse jdump jprint m l h1 h2 h3 h4 h5⟩

/-- Witness for the amended C3 at concrete assistant messages, with
JSON values instantiated as their source strings. -/
theorem converter_roundtrip_amended_witness :
    roundTripOpenAI (J := String)
        ⟨.assistant, .str "hi", some [⟨"c1", "function", "f", "null"⟩], none, none⟩ =
      ⟨.assistant, some "hi", some [⟨"c1", "function", "f", "null"⟩]⟩ ∧
    roundTripMistral (J := String)
        ⟨.assistant, .null, some [⟨"c1", "function", "f", "null"⟩], none, none⟩ =
      ⟨.assistant, none, some [⟨"c1", "function", "f", "null"⟩]⟩ ∧
    roundTripAnthropic (J := String) some (fun _ => "") id
        ⟨.assistant, .str "hi", some [⟨"c1", "function", "f", "null"⟩], none, none⟩ =
      some ⟨.assistant, some "hi", some [⟨"c1", "function", "f", "null"⟩]⟩ := by
  have T := converter_roundtrip_amended (J := String) some (fun _ => "") id
  refine ⟨?_, ?_, ?_⟩
  · exact T.1 ⟨.assistant, .str "hi", some [⟨"c1", "function", "f", "null"⟩], none, none⟩
      rfl (by decide) (by decide)
  · exact T.2.1 ⟨.assistant, .null, some [⟨"c1", "function", "f", "null"⟩], none, none⟩
      rfl (by decide) (by decide)
  · refine T.2.2 ⟨.assistant, .str "hi", some [⟨"c1", "function", "f", "null"⟩], none, none⟩
      [⟨"c1", "function", "f", "null"⟩] rfl (by decide) rfl (by decide) ?_
    intro tc htc
    simp only [List.mem_singleton] at htc
    subst htc
    exact ⟨rfl, "null", rfl, rfl⟩

/-! ## C4 — split-invariance of the stream normalizers -/

theorem isPrefixOf_append_right (d a b : List Char) (h : d.isPrefixOf a = true) :
    d.isPrefixOf (a ++ b) = true := by
  induction d generalizing a with
  | nil => simp [List.isPrefixOf]
  | cons x xs ih =>
    cases a with
    | nil => simp [List.isPrefixOf] at h
    | cons y ys =>
      simp only [List.isPrefixOf, List.cons_append, Bool.and_eq_true] at h ⊢
      exact ⟨h.1, ih ys h.2⟩

theorem isPrefixOf_length_le (d a : List Char) (h : d.isPrefixOf a = true) :
    d.length ≤ a.length := by
  induction d generalizing a with
  | nil => simp
  | cons x xs ih =>
    cases a with
    | nil => simp [List.isPrefixOf] at h
    | cons y ys =>
      simp only [List.isPrefixOf, Bool.and_eq_true] at h
      have := ih ys h.2
      simp only [List.length_cons]
      omega

theorem isPrefixOf_append_left (d a b : List Char) (hlen : d.length ≤ a.length)
    (h : d.isPrefixOf (a ++ b) = true) : d.isPrefixOf a = true := by
  induction d generalizing a with
  | nil => simp [List.isPrefixOf]
  | cons x xs ih =>
    cases a with
    | nil => simp at hlen
    | cons y ys =>
      simp only [List.cons_append, List.isPrefixOf, Bool.and_eq_true] at h ⊢
      refine ⟨h.1, ih ys (by simpa using hlen) h.2⟩

theorem isPrefixOf_take_drop (d s : List Char) (h : d.isPrefixOf s = true) :
    s = d ++ s.drop d.length := by
  induction d generalizing s with
  | nil => simp
  | cons x xs ih =>
    cases s with
    | nil => simp [List.isPrefixOf] at h
    | cons y ys =>
      simp only [List.isPrefixOf, Bool.and_eq_true, beq_iff_eq] at h
      obtain ⟨hxy, hrest⟩ := h
      subst hxy
      simp only [List.length_cons, List.drop_succ_cons, List.cons_append]
      exact congrArg (x :: ·) (ih ys hrest)

theorem findSplit_sound (d : List Char) (s pre post : List Char)
    (h : findSplit d s = some (pre, post)) : s = pre ++ d ++ post := by
  induction s generalizing pre post with
  | nil => simp [findSplit] at h
  | cons c rest ih =>
    by_cases hp : d.isPrefixOf (c :: rest) = true
    · rw [findSplit, if_pos hp] at h
      simp only [Option.some.injEq, Prod.mk.injEq] at h
      obtain ⟨hpre, hpost⟩ := h
      subst hpre
      subst hpost
      simpa using isPrefixOf_take_drop d (c :: rest) hp
    · rw [findSplit, if_neg hp] at h
      cases hr : findSplit d rest with
      | none => rw [hr] at h; simp at h
      | some pr =>
        obtain ⟨pre', post'⟩ := pr
        rw [hr] at h
        simp only [Option.map_some', Option.some.injEq, Prod.mk.injEq] at h
        obtain ⟨hpre, hpost⟩ := h
        subst hpre
        subst hpost
        have hres := ih pre' post' hr
        simp [hres]

theorem findSplit_append (d a b pre post : List Char)
    (h : findSplit d a = some (pre, post)) :
    findSplit d (a ++ b) = some (pre, post ++ b) := by
  induction a generalizing pre post with
  | nil => simp [findSplit] at h
  | cons c rest ih =>
    by_cases hp : d.isPrefixOf (c :: rest) = true
    · rw [findSplit, if_pos hp] at h
      simp only [Option.some.injEq, Prod.mk.injEq] at h
      obtain ⟨hpre, hpost⟩ := h
      subst hpre
      subst hpost
      have hlen : d.length ≤ (c :: rest).length := isPrefixOf_length_le d (c :: rest) hp
      have hp2 : d.isPrefixOf (c :: (rest ++ b)) = true := by
        have := isPrefixOf_append_right d (c :: rest) b hp
        rwa [List.cons_append] at this
      rw [List.cons_append, findSplit, if_pos hp2]
      have hdrop : (c :: (rest ++ b)).drop d.length = (c :: rest).drop d.length ++ b := by
        rw [← List.cons_append]
        exact List.drop_append_of_le_length hlen
      rw [hdrop]
    · rw [findSplit, if_neg hp] at h
      cases hr : findSplit d rest with
      | none => rw [hr] at h; simp at h
      | some pr =>
        obtain ⟨pre', post'⟩ := pr
        rw [hr] at h
        simp only [Option.map_some', Option.some.injEq, Prod.mk.injEq] at h
        obtain ⟨hpre, hpost⟩ := h
        subst hpre
        subst hpost
        have hlen : d.length ≤ rest.length := by
          have := findSplit_sound d rest pre' post' hr
          rw [this]
          simp
          omega
        have hp2 : ¬ d.isPrefixOf (c :: (rest ++ b)) = true := by
          intro hcon
          exact hp (isPrefixOf_append_left d (c :: rest) b (by simpa using Nat.le_succ_of_le hlen)
            (by simpa using hcon))
        rw [List.cons_append, findSplit, if_neg hp2, ih pre' post' hr]
        rfl

theorem findSplit_post_lt (d : List Char) (hd : d ≠ []) (s pre post : List Char)
    (h : findSplit d s = some (pre, post)) : post.length < s.length := by
  have hs := findSplit_sound d s pre post h
  rw [hs]
  simp only [List.append_assoc, List.length_append]
  cases d with
  | nil => exact absurd rfl hd
  | cons x xs => simp; omega

theorem scanChunkF_none (d : List Char) (f : Nat) (s : List Char)
    (h : findSplit d s = none) : scanChunkF d (f + 1) s = ([], s) := by
  conv_lhs => rw [scanChunkF]
  rw [h]

theorem scanChunkF_step (d : List Char) (f : Nat) (s pre post : List Char)
    (h : findSplit d s = some (pre, post)) :
    scanChunkF d (f + 1) s = (pre :: (scanChunkF d f post).1, (scanChunkF d f post).2) := by
  conv_lhs => rw [scanChunkF]
  rw [h]

theorem scanChunkF_fuel_irrel (d : List Char) (hd : d ≠ []) :
    ∀ n s f₁ f₂, s.length ≤ n → s.length < f₁ → s.length < f₂ →
      scanChunkF d f₁ s = scanChunkF d f₂ s := by
  intro n
  induction n with
  | zero =>
    intro s f₁ f₂ hs h1 h2
    cases f₁ with
    | zero => omega
    | succ k =>
      cases f₂ with
      | zero => omega
      | succ m =>
        have hnil : s = [] := List.length_eq_zero.mp (by omega)
        subst hnil
        rw [scanChunkF_none d k [] (by rw [findSplit]), scanChunkF_none d m [] (by rw [findSplit])]
  | succ n ih =>
    intro s f₁ f₂ hs h1 h2
    cases f₁ with
    | zero => omega
    | succ k =>
      cases f₂ with
      | zero => omega
      | succ m =>
        cases hf : findSplit d s with
        | none => rw [scanChunkF_none d k s hf, scanChunkF_none d m s hf]
        | some pr =>
          obtain ⟨pre, post⟩ := pr
          have hlt : post.length < s.length := findSplit_post_lt d hd s pre post hf
          rw [scanChunkF_step d k s pre post hf, scanChunkF_step d m s pre post hf,
            ih post k m (by omega) (by omega) (by omega)]

theorem scanChunk_cons_of_findSplit (d : List Char) (hd : d ≠ []) (s pre post : List Char)
    (h : findSplit d s = some (pre, post)) :
    scanChunk d s = (pre :: (scanChunk d post).1, (scanChunk d post).2) := by
  have hlt : post.length < s.length := findSplit_post_lt d hd s pre post h
  rw [scanChunk, scanChunkF_step d s.length s pre post h, scanChunk,
    scanChunkF_fuel_irrel d hd post.length post s.length (post.length + 1) le_rfl hlt
      (by omega)]

theorem scanChunk_none (d : List Char) (s : List Char) (h : findSplit d s = none) :
    scanChunk d s = ([], s) := by
  rw [scanChunk, scanChunkF_none d s.length s h]

theorem scanChunk_rem_no_split (d : List Char) (hd : d ≠ []) :
    ∀ n s, s.length ≤ n → findSplit d (scanChunk d s).2 = none := by
  intro n
  induction n with
  | zero =>
    intro s hs
    have hnil : s = [] := List.length_eq_zero.mp (by omega)
    subst hnil
    rw [scanChunk]
    simp [scanChunkF, findSplit]
  | succ n ih =>
    intro s hs
    cases hf : findSplit d s with
    | none => rw [scanChunk_none d s hf]; exact hf
    | some pr =>
      obtain ⟨pre, post⟩ := pr
      have hlt : post.length < s.length := findSplit_post_lt d hd s pre post hf
      rw [scanChunk_cons_of_findSplit d hd s pre post hf]
      exact ih post (by omega)

theorem scanChunk_append (d : List Char) (hd : d ≠ []) :
    ∀ n a, a.length ≤ n → ∀ b,
      scanChunk d (a ++ b) =
        ((scanChunk d a).1 ++ (scanChunk d ((scanChunk d a).2 ++ b)).1,
         (scanChunk d ((scanChunk d a).2 ++ b)).2) := by
  intro n
  induction n with
  | zero =>
    intro a ha b
    have hnil : a = [] := List.length_eq_zero.mp (by omega)
    subst hnil
    rw [scanChunk_none d [] (by simp [findSplit])]
    simp
  | succ n ih =>
    intro a ha b
    cases hf : findSplit d a with
    | none =>
      rw [scanChunk_none d a hf]
      simp
    | some pr =>
      obtain ⟨pre, post⟩ := pr
      have hlt : post.length < a.length := findSplit_post_lt d hd a pre post hf
      have hfb : findSplit d (a ++ b) = some (pre, post ++ b) :=
        findSplit_append d a b pre post hf
      rw [scanChunk_cons_of_findSplit d hd (a ++ b) pre (post ++ b) hfb,
        scanChunk_cons_of_findSplit d hd a pre post hf]
      have := ih post (by omega) b
      rw [this]
      simp

theorem foldSegs_cons {σ Ev : Type} (M : SegMachine σ Ev) (s : σ) (seg : List Char)
    (rest : List (List Char)) :
    foldSegs M s (seg :: rest) =
      (if M.trigger seg then M.step s seg
       else ((M.step s seg).1 ++ (foldSegs M (M.step s seg).2 rest).1,
             (foldSegs M (M.step s seg).2 rest).2)) := rfl

theorem foldSegs_append {σ Ev : Type} (M : SegMachine σ Ev) (S1 S2 : List (List Char)) (s : σ)
    (h : ∀ seg ∈ S1, M.trigger seg = false) :
    foldSegs M s (S1 ++ S2) =
      ((foldSegs M s S1).1 ++ (foldSegs M (foldSegs M s S1).2 S2).1,
       (foldSegs M (foldSegs M s S1).2 S2).2) := by
  induction S1 generalizing s with
  | nil => simp [foldSegs]
  | cons seg S1' ih =>
    have htr : M.trigger seg = false := h seg (by simp)
    rw [List.cons_append, foldSegs_cons, foldSegs_cons, htr]
    simp only [Bool.false_eq_true, if_false]
    rw [ih (M.step s seg).2 (fun x hx => h x (by simp [hx]))]
    simp [List.append_assoc]

theorem dropLast_append_cons {α : Type} (S1 : List α) (q : α) (S2 : List α) :
    (S1 ++ q :: S2).dropLast = S1 ++ (q :: S2).dropLast := by
  induction S1 with
  | nil => rfl
  | cons x xs ih =>
    rw [List.cons_append]
    cases hxs : xs ++ q :: S2 with
    | nil => simp at hxs
    | cons y ys =>
      rw [List.dropLast_cons₂, ← hxs, ih, List.cons_append]

theorem processRead_eq_def {σ Ev : Type} (d : List Char) (M : SegMachine σ Ev)
    (st : List Char × σ) (c : List Char) :
    processRead d M st c =
      ((foldSegs M st.2 (scanChunk d (st.1 ++ c)).1).1,
       ((scanChunk d (st.1 ++ c)).2,
        (foldSegs M st.2 (scanChunk d (st.1 ++ c)).1).2)) := rfl

theorem processReads_cons {σ Ev : Type} (d : List Char) (M : SegMachine σ Ev)
    (st : List Char × σ) (p : List Char) (rest : List (List Char)) :
    processReads d M st (p :: rest) =
      ((processRead d M st p).1 ++ (processReads d M (processRead d M st p).2 rest).1,
       (processReads d M (processRead d M st p).2 rest).2) := rfl

theorem processReads_eq {σ Ev : Type} (d : List Char) (hd : d ≠ []) (M : SegMachine σ Ev) :
    ∀ (parts : List (List Char)) (b : List Char) (s : σ),
      findSplit d b = none →
      noMidTrigger M d (b ++ parts.join) →
      processReads d M (b, s) parts = processRead d M (b, s) parts.join := by
  intro parts
  induction parts with
  | nil =>
    intro b s hb _
    have hscan : scanChunk d b = ([], b) := scanChunk_none d b hb
    simp [processReads, processRead_eq_def, hscan, foldSegs]
  | cons p rest ih =>
    intro b s hb hmid
    have hbp : (b ++ p) ++ rest.join = b ++ (p :: rest).join := by
      simp [List.append_assoc]
    have hsplit := scanChunk_append d hd (b ++ p).length (b ++ p) le_rfl rest.join
    rcases hA : scanChunk d (b ++ p) with ⟨S1, r1⟩
    rcases hB : scanChunk d (r1 ++ rest.join) with ⟨S2, r2⟩
    rw [hA, hB] at hsplit
    simp only at hsplit
    have hr1 : findSplit d r1 = none := by
      have := scanChunk_rem_no_split d hd (b ++ p).length (b ++ p) le_rfl
      rwa [hA] at this
    have hPayload : scanChunk d (b ++ (p :: rest).join) = (S1 ++ S2, r2) := by
      rw [← hbp, hsplit]
    rcases hFold1 : foldSegs M s S1 with ⟨e1, s1⟩
    have hP1 : processRead d M (b, s) p = (e1, (r1, s1)) := by
      simp only [processRead_eq_def, hA, hFold1]
    have hmid' : ∀ seg ∈ (S1 ++ S2).dropLast, M.trigger seg = false := by
      intro seg hseg
      have := hmid seg
      rw [hPayload] at this
      exact this hseg
    cases S2 with
    | nil =>
      have hjoin2 : noMidTrigger M d (r1 ++ rest.join) := by
        intro seg hseg
        rw [hB] at hseg
        simp at hseg
      have hrec := ih r1 s1 hr1 hjoin2
      have hP2 : processRead d M (r1, s1) rest.join = ([], (r2, s1)) := by
        simp only [processRead_eq_def, hB, foldSegs]
      rw [hP2] at hrec
      rw [processReads_cons, hP1, hrec]
      simp only [processRead_eq_def, hPayload, List.append_nil, hFold1]
    | cons q S2' =>
      have hS1 : ∀ seg ∈ S1, M.trigger seg = false := by
        intro seg hseg
        apply hmid'
        rw [dropLast_append_cons]
        simp [hseg]
      have hjoin2 : noMidTrigger M d (r1 ++ rest.join) := by
        intro seg hseg
        rw [hB] at hseg
        simp only at hseg
        apply hmid'
        rw [dropLast_append_cons]
        simp [hseg]
      have hrec := ih r1 s1 hr1 hjoin2
      rcases hFold2 : foldSegs M s1 (q :: S2') with ⟨e2, s2⟩
      have hP2 : processRead d M (r1, s1) rest.join = (e2, (r2, s2)) := by
        simp only [processRead_eq_def, hB, hFold2]
      rw [hP2] at hrec
      have hApp : foldSegs M s (S1 ++ q :: S2') = (e1 ++ e2, s2) := by
        rw [foldSegs_append M S1 (q :: S2') s hS1, hFold1]
        simp only
        rw [hFold2]
      rw [processReads_cons, hP1, hrec]
      simp only [processRead_eq_def, hPayload, hApp]

/-- C4 counterexample.  The handler's `[DONE]` branch executes `return`,
which skips the remaining complete lines of the *current* read but not
lines arriving in later reads: for the payload
`data: [DONE]\n\ndata: [DONE]\n\n`, contiguous delivery emits one final
event, while delivery split at the segment boundary emits two — the
final event is emitted twice, so the event sequence depends on the
partition.  (The payload parser is never consulted on `[DONE]` lines and
is instantiated as the constant failure.) -/
theorem stream_done_split_divergence :
    ["data: [DONE]\n\n".data, "data: [DONE]\n\n".data].join =
      "data: [DONE]\n\ndata: [DONE]\n\n".data ∧
    (processReads ("\n\n".data) (oaiMachine (fun _ => none)) ([], ⟨none⟩)
        ["data: [DONE]\n\n".data, "data: [DONE]\n\n".data]).1 =
      [.done ⟨0, 0, 0⟩, .done ⟨0, 0, 0⟩] ∧
    (processRead ("\n\n".data) (oaiMachine (fun _ => none)) ([], ⟨none⟩)
        ("data: [DONE]\n\ndata: [DONE]\n\n".data)).1 =
      [.done ⟨0, 0, 0⟩] := by
  decide

/-- C4 amended.  For every payload in which no complete segment follows
the first terminating segment (`[DONE]` data line, `message_stop` event)
— which includes every well-formed provider stream, since the terminator
is its last unit — the normalizer emits the same event sequence and ends
in the same state under every partition of the byte stream into reads as
for one contiguous read: a partial line or event at the end of a read is
buffered and prefixed to the next read, never dropped and never emitted
twice.  This holds for the OpenAI/Mistral handler (separator `\n\n`) and
the Anthropic handler (separator `\n`), for every payload parser. -/
theorem stream_split_invariance
    (parse : List Char → Option OAIDelta)
    (aparse : List Char → Option AnthWireEv)
    (finalizeArgs : String → String) (emptyArgsStr : String)
    (oparts aparts : List (List Char))
    (h1 : noMidTrigger (oaiMachine parse) ("\n\n".data) oparts.join)
    (h2 : noMidTrigger (anthMachine aparse finalizeArgs emptyArgsStr) ("\n".data)
      aparts.join) :
    processReads ("\n\n".data) (oaiMachine parse) ([], ⟨none⟩) oparts =
      processRead ("\n\n".data) (oaiMachine parse) ([], ⟨none⟩) oparts.join ∧
    processReads ("\n".data) (anthMachine aparse finalizeArgs emptyArgsStr)
        ([], ⟨none, [], none⟩) aparts =
      processRead ("\n".data) (anthMachine aparse finalizeArgs emptyArgsStr)
        ([], ⟨none, [], none⟩) aparts.join := by
  constructor
  · exact processReads_eq ("\n\n".data) (by decide) (oaiMachine parse) oparts [] ⟨none⟩
      rfl h1
  · exact processReads_eq ("\n".data) (by decide)
      (anthMachine aparse finalizeArgs emptyArgsStr) aparts [] ⟨none, [], none⟩
      rfl h2

/-- Witness for the amended C4: a chunk split mid-line for each of the
two handlers. -/
theorem stream_split_invariance_witness :
    processReads ("\n\n".data) (oaiMachine (fun _ => none)) ([], ⟨none⟩)
        ["data: [DO".data, "NE]\n\n".data] =
      processRead ("\n\n".data) (oaiMachine (fun _ => none)) ([], ⟨none⟩)
        (["data: [DO".data, "NE]\n\n".data].join) ∧
    processReads ("\n".data) (anthMachine (fun _ => none) id "") ([], ⟨none, [], none⟩)
        ["event: mes".data, "sage\n".data] =
      processRead ("\n".data) (anthMachine (fun _ => none) id "") ([], ⟨none, [], none⟩)
        (["event: mes".data, "sage\n".data].join) :=
  stream_split_invariance (fun _ => none) (fun _ => none) id ""
    ["data: [DO".data, "NE]\n\n".data] ["event: mes".data, "sage\n".data]
    (by decide) (by decide)

end AIProxy
